import Mathlib

/-!
# Verification of the cross-source seat reconciliation engine

A shallow embedding, in Lean 4, of the core algorithms of the `bilety`
seat-availability tracker:

* row-name normalization (backend stats route and frontend page component),
* seat-key normalization,
* structural sector matching with a greedy no-reuse constraint,
* the per-request seat-history update and inferred-sold computation,
* the frontend single-color seat resolution,
* the manual-override color merger,
* the period-over-period sales diff.

JavaScript strings are modelled as `List Char`; JavaScript numbers are
modelled as `ℕ`, `ℤ` or `ℚ` depending on use (all quantities involved are
small integers or exact small fractions, where IEEE double arithmetic is
exact or rounds identically on the comparisons performed).
JavaScript objects and `Map`s are modelled as association lists updated in
place, preserving insertion order exactly as JS does; `Set`s are modelled as
insertion-ordered lists without duplicates.
-/

set_option maxHeartbeats 1000000
set_option maxRecDepth 100000

namespace Bilety

/-- JS strings, modelled as lists of characters. -/
abbrev Str := List Char

/-! ## Character-level case mapping

Model of JavaScript `toUpperCase` / `toLowerCase` restricted to the
characters that occur in the repository's data: ASCII letters and the
Polish diacritic letters. All other characters are fixed. -/

/-- One character of JS `toUpperCase`. -/
def charUpper (c : Char) : Char :=
  if 97 ≤ c.toNat ∧ c.toNat ≤ 122 then Char.ofNat (c.toNat - 32)
  else if c = 'ą' then 'Ą' else if c = 'ć' then 'Ć' else if c = 'ę' then 'Ę'
  else if c = 'ł' then 'Ł' else if c = 'ń' then 'Ń' else if c = 'ó' then 'Ó'
  else if c = 'ś' then 'Ś' else if c = 'ź' then 'Ź' else if c = 'ż' then 'Ż'
  else c

/-- One character of JS `toLowerCase`. -/
def charLower (c : Char) : Char :=
  if 65 ≤ c.toNat ∧ c.toNat ≤ 90 then Char.ofNat (c.toNat + 32)
  else if c = 'Ą' then 'ą' else if c = 'Ć' then 'ć' else if c = 'Ę' then 'ę'
  else if c = 'Ł' then 'ł' else if c = 'Ń' then 'ń' else if c = 'Ó' then 'ó'
  else if c = 'Ś' then 'ś' else if c = 'Ź' then 'ź' else if c = 'Ż' then 'ż'
  else c

/-- Whitespace as stripped by JS `String.prototype.trim` (the characters
relevant here: ASCII whitespace and no-break space). -/
def isSpc (c : Char) : Bool :=
  c.toNat = 32 ∨ (9 ≤ c.toNat ∧ c.toNat ≤ 13) ∨ c.toNat = 160

/-- JS `String.prototype.trim`: strip whitespace from both ends. -/
def trimStr (s : Str) : Str :=
  ((s.dropWhile isSpc).reverse.dropWhile isSpc).reverse

/-- The characters moved by the two case maps (for case analysis in
proofs): ASCII letters and the nine Polish letter pairs. -/
def letterish (c : Char) : Prop :=
  (97 ≤ c.toNat ∧ c.toNat ≤ 122) ∨ (65 ≤ c.toNat ∧ c.toNat ≤ 90) ∨
  c = 'ą' ∨ c = 'ć' ∨ c = 'ę' ∨ c = 'ł' ∨ c = 'ń' ∨ c = 'ó' ∨
  c = 'ś' ∨ c = 'ź' ∨ c = 'ż' ∨
  c = 'Ą' ∨ c = 'Ć' ∨ c = 'Ę' ∨ c = 'Ł' ∨ c = 'Ń' ∨ c = 'Ó' ∨
  c = 'Ś' ∨ c = 'Ź' ∨ c = 'Ż'

/-! ## Roman numerals and the row-name normalizers -/

/-- First-match association-list lookup, the model of JS `map[key]`
(JS object keys are unique, so first match is the binding). -/
def lookupA {α : Type} : List (Str × α) → Str → Option α
  | [], _ => none
  | (k, v) :: t, k2 => if k2 = k then some v else lookupA t k2

/-- The `ROMAN_MAP` constant shared by both normalizers
(`src/unnamed/part_001` and `src/seat-checker/src/app/page.tsx`). -/
def ROMAN_MAP : List (Str × ℕ) :=
  [("I".data, 1), ("II".data, 2), ("III".data, 3), ("IV".data, 4), ("V".data, 5),
   ("VI".data, 6), ("VII".data, 7), ("VIII".data, 8), ("IX".data, 9), ("X".data, 10),
   ("XI".data, 11), ("XII".data, 12), ("XIII".data, 13), ("XIV".data, 14), ("XV".data, 15),
   ("XVI".data, 16), ("XVII".data, 17), ("XVIII".data, 18), ("XIX".data, 19), ("XX".data, 20),
   ("XXI".data, 21), ("XXII".data, 22), ("XXIII".data, 23), ("XXIV".data, 24), ("XXV".data, 25),
   ("XXVI".data, 26), ("XXVII".data, 27), ("XXVIII".data, 28), ("XXIX".data, 29), ("XXX".data, 30)]

/-- Decimal rendering of a natural number, JS `String(n)`. -/
def natToStr (n : ℕ) : Str := (Nat.repr n).data

/-- ASCII digit. -/
def isDigitC (c : Char) : Bool := 48 ≤ c.toNat ∧ c.toNat ≤ 57

/-- Member of the regex character class `[IVXLC]`. -/
def isRomanC (c : Char) : Bool :=
  c = 'I' ∨ c = 'V' ∨ c = 'X' ∨ c = 'L' ∨ c = 'C'

/-- The match of the JS regex `/(\d+|[IVXLC]+)$/` on `t`, if any: the
longest all-digit suffix when the last character is a digit, otherwise the
longest all-`[IVXLC]` suffix when the last character is in that class
(leftmost-match semantics of the anchored alternation). -/
def trailingToken (t : Str) : Option Str :=
  if t.reverse.takeWhile isDigitC ≠ [] then some (t.reverse.takeWhile isDigitC).reverse
  else if t.reverse.takeWhile isRomanC ≠ [] then some (t.reverse.takeWhile isRomanC).reverse
  else none

/-- `normalizeRowName` of the backend stats route (`src/unnamed/part_001`,
lines 23–42): trim and uppercase; a pure Roman numeral in `ROMAN_MAP` maps
to its Arabic value; otherwise a trailing numeral or Roman token is
resolved; otherwise the trimmed string is returned lower-cased. -/
def normalizeRowName (row : Str) : Str :=
  let trimmed := (trimStr row).map charUpper
  match lookupA ROMAN_MAP trimmed with
  | some n => natToStr n
  | none =>
    match trailingToken trimmed with
    | some numPart =>
      match lookupA ROMAN_MAP numPart with
      | some n => natToStr n
      | none => numPart
    | none => trimmed.map charLower

/-- `normalizeSeatKey` of the backend stats route (`src/unnamed/part_001`,
lines 44–52): split on `-`; when at least two parts, normalize the first
part as a row name and rejoin the rest with `-`. -/
def normalizeSeatKey (seatKey : Str) : Str :=
  match seatKey.splitOn '-' with
  | p0 :: p1 :: rest =>
    normalizeRowName p0 ++ '-' :: List.intercalate ['-'] (p1 :: rest)
  | _ => seatKey

/-- `normalizeRowName` of the frontend page component
(`src/seat-checker/src/app/page.tsx`, lines 128–136): uppercase and trim;
a pure Roman numeral maps to its Arabic value; otherwise the original
string is returned merely trimmed. -/
def normalizeRowNameFE (row : Str) : Str :=
  let upperRow := trimStr (row.map charUpper)
  match lookupA ROMAN_MAP upperRow with
  | some n => natToStr n
  | none => trimStr row

/-- `normalizeSeatKey` of the frontend page component
(`src/seat-checker/src/app/page.tsx`, lines 138–146). -/
def normalizeSeatKeyFE (seatKey : Str) : Str :=
  match seatKey.splitOn '-' with
  | p0 :: p1 :: rest =>
    normalizeRowNameFE p0 ++ '-' :: List.intercalate ['-'] (p1 :: rest)
  | _ => seatKey

/-! ## Data model -/

/-- Per-row seat counters (`RowStats` in `src/seat-checker/src/lib/types.ts`). -/
structure RowStats where
  total : ℕ
  free : ℕ
  taken : ℕ
deriving DecidableEq

/-- `{ total, free, taken }` aggregate totals. -/
structure Totals where
  total : ℕ
  free : ℕ
  taken : ℕ
deriving DecidableEq

/-- The three vendors (`SourceType`). -/
inductive Source where
  | biletyna
  | ebilet
  | kupbilecik
deriving DecidableEq

/-- `SectorStats` from `src/seat-checker/src/lib/types.ts`. -/
structure SectorStatsM where
  sectorName : Str
  rows : List (Str × RowStats)
  freeSeats : List Str
  takenSeats : List Str
  totals : Totals
deriving DecidableEq

/-- `SourceStats` from `src/seat-checker/src/lib/types.ts` (`finalUrl`
omitted: it is attribution-only and never reconciled). `sectors` is
present only when the source has more than one sector. -/
structure SourceStatsM where
  source : Source
  totals : Totals
  rows : List (Str × RowStats)
  freeSeats : List Str
  takenSeats : List Str
  sectors : Option (List SectorStatsM)
deriving DecidableEq

/-! ## Association-list update and set insertion (JS object / Map / Set) -/

/-- JS `obj[k] = v` / `map.set(k, v)`: replace the value in place when the
key is present, append at the end otherwise. -/
def recSet {α : Type} (m : List (Str × α)) (k : Str) (v : α) : List (Str × α) :=
  if (lookupA m k).isSome then m.map (fun p => if p.1 = k then (k, v) else p)
  else m ++ [(k, v)]

/-- JS `set.add(k)`: append when absent. -/
def addSet (s : List Str) (k : Str) : List Str :=
  if k ∈ s then s else s ++ [k]

/-! ## Sector matching (`matchSectorByStructure`, `src/unnamed/part_001`
lines 377–461) -/

/-- Sum of the per-row `total` counters of a vendor sector's row map. -/
def sumTotals (rows : List (Str × RowStats)) : ℕ :=
  rows.foldl (fun s p => s + p.2.total) 0

/-- `Math.abs(a − b) / Math.max(a, b, 1)` on row counts. -/
def rowCountRelDiff (a b : ℕ) : ℚ :=
  |(a : ℚ) - (b : ℚ)| / max (max (a : ℚ) (b : ℚ)) 1

/-- The 0–100 similarity score of a vendor sector (given by its row map)
against one canonical (kupbilecik) sector: up to 30 points for row-count
similarity, up to 30 for total-seat-count similarity, up to 40 for the
fraction of the vendor's distinct normalized row names also present among
the canonical sector's normalized row names. -/
def sectorScore (vendorRows : List (Str × RowStats)) (sector : SectorStatsM) : ℚ :=
  let vRowNames := vendorRows.map Prod.fst
  let vRowCount := vRowNames.length
  let vTotalSeats := sumTotals vendorRows
  let kbRowNames := sector.rows.map Prod.fst
  let kbRowCount := kbRowNames.length
  let kbTotalSeats := sector.totals.total
  let rcDiff := rowCountRelDiff vRowCount kbRowCount
  let score1 : ℚ := if vRowCount = kbRowCount then 30 else max 0 (30 - rcDiff * 100)
  let seatDiff : ℚ :=
    |(vTotalSeats : ℚ) - (kbTotalSeats : ℚ)| / max (max (vTotalSeats : ℚ) (kbTotalSeats : ℚ)) 1
  let score2 : ℚ := if vTotalSeats = kbTotalSeats then 30 else max 0 (30 - seatDiff * 150)
  let normalizedVRows := (vRowNames.map normalizeRowName).dedup
  let normalizedKbRows := kbRowNames.map normalizeRowName
  let matchingRowNames := (normalizedVRows.filter (fun r => r ∈ normalizedKbRows)).length
  let ratio : ℚ := (matchingRowNames : ℚ) / max (vRowCount : ℚ) 1
  score1 + score2 + ratio * 40

/-- The candidate loop of `matchSectorByStructure`: skip candidates already
claimed, skip candidates whose row count differs by more than 30% relative
to the larger count (hard filter), and keep the strictly best-scoring
survivor together with its score (initial best score 0). -/
def matchFold (vendorRows : List (Str × RowStats)) (kbSectors : List SectorStatsM)
    (matched : List Str) : Option SectorStatsM × ℚ :=
  kbSectors.foldl (fun best sector =>
    if sector.sectorName ∈ matched then best
    else if rowCountRelDiff vendorRows.length sector.rows.length > 3/10 then best
    else if sectorScore vendorRows sector > best.2 then (some sector, sectorScore vendorRows sector)
    else best) (none, 0)

/-- `matchSectorByStructure`: run the candidate loop; accept the best
candidate only when its score is at least 50, recording its name in the
claimed set. Returns the (optional) match plus the updated claimed set
(the JS function mutates the set in place). -/
def matchSectorByStructure (vendorRows : List (Str × RowStats))
    (kbSectors : List SectorStatsM) (matched : List Str) :
    Option SectorStatsM × List Str :=
  let best := matchFold vendorRows kbSectors matched
  match best.1 with
  | some m => if 50 ≤ best.2 then (some m, addSet matched m.sectorName) else (none, matched)
  | none => (none, matched)

/-- Successive greedy matching of a list of vendor sectors (each given by
its row map) against one canonical layout, threading one claimed-set
through the calls exactly as each vendor-processing loop does. Returns the
per-input optional match and the final claimed set. -/
def greedyMatchAll (vendorSectors : List (List (Str × RowStats)))
    (kbSectors : List SectorStatsM) (matched : List Str) :
    List (Option SectorStatsM) × List Str :=
  vendorSectors.foldl (fun acc v =>
    (acc.1 ++ [(matchSectorByStructure v kbSectors acc.2).1],
     (matchSectorByStructure v kbSectors acc.2).2)) ([], matched)

/-! ## Biletyna sector combination (`combineBiletynaSectors`,
`src/unnamed/part_001` lines 133–220) -/

/-- One scraped biletyna sector page (`BiletynaSectorResult`; the unused
`sectorUrl` of the caller's pairing is omitted). -/
structure BiletynaSectorResult where
  rows : List (Str × RowStats)
  freeSeats : List Str
  takenSeats : List Str
deriving DecidableEq

/-- Merge `stats` into the row map entry for `row`, creating a zero entry
first when absent (the `globalRowsData` accumulation pattern). -/
def bumpRows (rowsData : List (Str × RowStats)) (row : Str) (stats : RowStats) :
    List (Str × RowStats) :=
  let cur := (lookupA rowsData row).getD ⟨0, 0, 0⟩
  recSet rowsData row ⟨cur.total + stats.total, cur.free + stats.free, cur.taken + stats.taken⟩

/-- Loop state of the multi-sector branch of `combineBiletynaSectors`. -/
structure BiletynaCombineState where
  sectors : List SectorStatsM
  globalRows : List (Str × RowStats)
  globalFreeSeats : List Str
  globalTakenSeats : List Str
  matchedKbSectors : List Str

/-- One iteration of the `combineBiletynaSectors` loop, at 0-based index
`i`: match the sector against the canonical layout (falling back to the
synthetic name `Sektor (i+1)`), then fold its rows and seat lists into the
global accumulators. -/
def biletynaStep (kb : Option (List SectorStatsM)) (st : BiletynaCombineState)
    (iAndD : ℕ × BiletynaSectorResult) : BiletynaCombineState :=
  let i := iAndD.1
  let d := iAndD.2
  let nameAndMatched : Str × List Str :=
    match kb with
    | none => ("Sektor ".data ++ natToStr (i + 1), st.matchedKbSectors)
    | some kbs =>
      match matchSectorByStructure d.rows kbs st.matchedKbSectors with
      | (some m, matched2) => (m.sectorName, matched2)
      | (none, matched2) => ("Sektor ".data ++ natToStr (i + 1), matched2)
  { sectors := st.sectors ++
      [{ sectorName := nameAndMatched.1, rows := d.rows,
         freeSeats := d.freeSeats, takenSeats := d.takenSeats,
         totals := ⟨d.freeSeats.length + d.takenSeats.length,
                    d.freeSeats.length, d.takenSeats.length⟩ }],
    globalRows := d.rows.foldl (fun g p => bumpRows g p.1 p.2) st.globalRows,
    globalFreeSeats := st.globalFreeSeats ++ d.freeSeats,
    globalTakenSeats := st.globalTakenSeats ++ d.takenSeats,
    matchedKbSectors := nameAndMatched.2 }

/-- `combineBiletynaSectors`: empty input yields `none`; a single sector is
returned whole with no `sectors` split; otherwise every sector is matched
greedily against the canonical layout and global totals are accumulated. -/
def combineBiletynaSectors (sectorResults : List BiletynaSectorResult)
    (kupbilecikSectors : Option (List SectorStatsM)) : Option SourceStatsM :=
  match sectorResults with
  | [] => none
  | [d] =>
    some { source := .biletyna
           totals := ⟨d.freeSeats.length + d.takenSeats.length,
                      d.freeSeats.length, d.takenSeats.length⟩
           rows := d.rows
           freeSeats := d.freeSeats
           takenSeats := d.takenSeats
           sectors := none }
  | _ =>
    let fin := sectorResults.enum.foldl (biletynaStep kupbilecikSectors) ⟨[], [], [], [], []⟩
    some { source := .biletyna
           totals := ⟨fin.globalFreeSeats.length + fin.globalTakenSeats.length,
                      fin.globalFreeSeats.length, fin.globalTakenSeats.length⟩
           rows := fin.globalRows
           freeSeats := fin.globalFreeSeats
           takenSeats := fin.globalTakenSeats
           sectors := if 1 < fin.sectors.length then some fin.sectors else none }

/-! ## eBilet processing (`processEbiletAllSectors`, `src/unnamed/part_001`
lines 236–373) -/

/-- One seat record of an eBilet seats response: seat id, row name, seat
number. -/
structure EbiletSeat where
  id : Str
  rn : Str
  n : Str
deriving DecidableEq

/-- One eBilet seats response for a sector id. -/
structure EbiletSeatsResponse where
  s : List EbiletSeat
deriving DecidableEq

/-- One group of free-seat ids inside `sfs`. -/
structure EbiletGroup where
  s : List Str
deriving DecidableEq

/-- The single eBilet freeseats response: per-sector groups plus an error
field. -/
structure EbiletFreeSeatsResponse where
  sfs : List (Str × List EbiletGroup)
  err : Option Str
deriving DecidableEq

/-- Add one seat into a row map: bump `total` and the `free`/`taken`
counter, creating a zero entry first when the row is absent. -/
def bumpSeatRow (rowsData : List (Str × RowStats)) (row : Str) (free : Bool) :
    List (Str × RowStats) :=
  let cur := (lookupA rowsData row).getD ⟨0, 0, 0⟩
  recSet rowsData row
    (if free then ⟨cur.total + 1, cur.free + 1, cur.taken⟩
     else ⟨cur.total + 1, cur.free, cur.taken + 1⟩)

/-- Accumulators of the per-sector seats loop of `processEbiletAllSectors`. -/
structure EbiletSectorScan where
  sectorRows : List (Str × RowStats)
  sectorFree : List Str
  sectorTaken : List Str
  globalRows : List (Str × RowStats)
  globalFree : List Str
  globalTaken : List Str

/-- One seat of the eBilet per-sector loop: a seat is free exactly when its
id occurs in the sector's free-seat id set. -/
def ebiletSeatStep (freeSeatIds : List Str) (acc : EbiletSectorScan)
    (seat : EbiletSeat) : EbiletSectorScan :=
  let seatKey := seat.rn ++ '-' :: seat.n
  let free := seat.id ∈ freeSeatIds
  { sectorRows := bumpSeatRow acc.sectorRows seat.rn free,
    sectorFree := if free then acc.sectorFree ++ [seatKey] else acc.sectorFree,
    sectorTaken := if free then acc.sectorTaken else acc.sectorTaken ++ [seatKey],
    globalRows := bumpSeatRow acc.globalRows seat.rn free,
    globalFree := if free then acc.globalFree ++ [seatKey] else acc.globalFree,
    globalTaken := if free then acc.globalTaken else acc.globalTaken ++ [seatKey] }

/-- Loop state of `processEbiletAllSectors` across sectors. -/
structure EbiletState where
  sectors : List SectorStatsM
  globalRows : List (Str × RowStats)
  globalFreeSeats : List Str
  globalTakenSeats : List Str
  matchedKbSectors : List Str
  sectorIndex : ℕ

/-- One sector of the `processEbiletAllSectors` loop: collect this sector's
free-seat ids from `sfs`, scan its seats, and — when it has any rows —
match it against the canonical layout (same greedy claimed-set as the
biletyna path, but a fresh set per vendor) and append its `SectorStats`. -/
def ebiletSectorStep (freeSeatsData : EbiletFreeSeatsResponse)
    (kb : Option (List SectorStatsM)) (st : EbiletState)
    (pair : Str × EbiletSeatsResponse) : EbiletState :=
  let sectorIndex := st.sectorIndex + 1
  let sectorGroups := (lookupA freeSeatsData.sfs pair.1).getD []
  let freeSeatIds := sectorGroups.foldl (fun a g => g.s.foldl addSet a) []
  let scan := pair.2.s.foldl (ebiletSeatStep freeSeatIds)
    ⟨[], [], [], st.globalRows, st.globalFreeSeats, st.globalTakenSeats⟩
  if scan.sectorRows ≠ [] then
    let nameAndMatched : Str × List Str :=
      match kb with
      | none => ("Sektor ".data ++ natToStr sectorIndex, st.matchedKbSectors)
      | some kbs =>
        match matchSectorByStructure scan.sectorRows kbs st.matchedKbSectors with
        | (some m, matched2) => (m.sectorName, matched2)
        | (none, matched2) => ("Sektor ".data ++ natToStr sectorIndex, matched2)
    { sectors := st.sectors ++
        [{ sectorName := nameAndMatched.1, rows := scan.sectorRows,
           freeSeats := scan.sectorFree, takenSeats := scan.sectorTaken,
           totals := ⟨scan.sectorFree.length + scan.sectorTaken.length,
                      scan.sectorFree.length, scan.sectorTaken.length⟩ }],
      globalRows := scan.globalRows,
      globalFreeSeats := scan.globalFree, globalTakenSeats := scan.globalTaken,
      matchedKbSectors := nameAndMatched.2, sectorIndex := sectorIndex }
  else
    { st with globalRows := scan.globalRows
              globalFreeSeats := scan.globalFree
              globalTakenSeats := scan.globalTaken
              sectorIndex := sectorIndex }

/-- Lexicographic comparison of strings by code units (JS default
`Array.prototype.sort` comparison for strings). -/
def lexLe : Str → Str → Bool
  | [], _ => true
  | _ :: _, [] => false
  | a :: as, b :: bs => if a < b then true else if b < a then false else lexLe as bs

/-- Insert into a lexicographically sorted list. -/
def insertSorted (x : Str) : List Str → List Str
  | [] => [x]
  | y :: t => if lexLe x y then x :: y :: t else y :: insertSorted x t

/-- Sort a list of strings lexicographically (JS `array.sort()`). -/
def sortStr (l : List Str) : List Str := l.foldr insertSorted []

/-- `processEbiletAllSectors`: fail on an error response or no captured
seats data; otherwise process every sector, aggregate global rows and seat
lists, sort the global seat lists, and split into `sectors` only when more
than one sector was produced. -/
def processEbiletAllSectors (seatsBySid : List (Str × EbiletSeatsResponse))
    (freeSeatsData : EbiletFreeSeatsResponse)
    (kupbilecikSectors : Option (List SectorStatsM)) : Option SourceStatsM :=
  if freeSeatsData.err ≠ none then none
  else if seatsBySid = [] then none
  else
    let fin := seatsBySid.foldl (ebiletSectorStep freeSeatsData kupbilecikSectors)
      ⟨[], [], [], [], [], 0⟩
    if fin.globalRows = [] then none
    else
      let sortedFree := sortStr fin.globalFreeSeats
      let sortedTaken := sortStr fin.globalTakenSeats
      some { source := .ebilet
             totals := ⟨sortedFree.length + sortedTaken.length,
                        sortedFree.length, sortedTaken.length⟩
             rows := fin.globalRows
             freeSeats := sortedFree
             takenSeats := sortedTaken
             sectors := if 1 < fin.sectors.length then some fin.sectors else none }

/-! ## History update and inferred-sold (`POST` handler,
`src/unnamed/part_001` lines 1368–1414) -/

/-- The three accumulators of the history-mode block: the (mutated) seat
history, this run's free-key set, and the set of sectors scraped this run. -/
structure HistState where
  history : List (Str × Source)
  currentFreeKeys : List Str
  knownSectors : List Str

/-- One free seat of the history loop: normalize the seat key, build the
unique key `sectorName:seatKey`, record it as currently free and write the
reporting vendor into the history. -/
def histSeatStep (src : Source) (sectorName : Str) (st : HistState)
    (seatKey : Str) : HistState :=
  let uniqueKey := sectorName ++ ':' :: normalizeSeatKey seatKey
  { history := recSet st.history uniqueKey src,
    currentFreeKeys := addSet st.currentFreeKeys uniqueKey,
    knownSectors := st.knownSectors }

/-- One sector of the history loop: record the sector as known, then
process its free seats in order. -/
def histSectorStep (src : Source) (st : HistState) (sector : SectorStatsM) :
    HistState :=
  sector.freeSeats.foldl (histSeatStep src sector.sectorName)
    { st with knownSectors := addSet st.knownSectors sector.sectorName }

/-- One source of the history loop: sources with no data or no `sectors`
split contribute nothing. -/
def histSourceStep (st : HistState) (p : Source × Option SourceStatsM) :
    HistState :=
  match p.2 with
  | none => st
  | some sourceData =>
    match sourceData.sectors with
    | none => st
    | some sectors => sectors.foldl (histSectorStep p.1) st

/-- Step 1 of the history block: update the loaded history with this run's
free seats, collecting the free-key set and known-sector set, iterating
the sources in the order they appear in `results`. -/
def runHistoryUpdate (history0 : List (Str × Source))
    (results : List (Source × Option SourceStatsM)) : HistState :=
  results.foldl histSourceStep ⟨history0, [], []⟩

/-- `uniqueKey.split(':')[0]`: the sector-name component of a history key. -/
def sectorOfKey (uniqueKey : Str) : Str :=
  uniqueKey.takeWhile (fun c => c ≠ ':')

/-- Apply a list of key-value writes, in order, with JS assignment
semantics (characterizes the history writes of one run). -/
def applyUpd (m : List (Str × Source)) (us : List (Str × Source)) : List (Str × Source) :=
  us.foldl (fun acc u => recSet acc u.1 u.2) m

/-- The history writes contributed by one sector of one source, in
execution order. -/
def updatesOfSector (src : Source) (sector : SectorStatsM) : List (Str × Source) :=
  sector.freeSeats.map (fun sk => (sector.sectorName ++ ':' :: normalizeSeatKey sk, src))

/-- The history writes contributed by one source, in execution order. -/
def updatesOfSource (p : Source × Option SourceStatsM) : List (Str × Source) :=
  match p.2 with
  | none => []
  | some sourceData =>
    match sourceData.sectors with
    | none => []
    | some sectors => (sectors.map (updatesOfSector p.1)).flatten

/-- All history writes of one run, in execution order. -/
def updatesOfResults (results : List (Source × Option SourceStatsM)) : List (Str × Source) :=
  (results.map updatesOfSource).flatten

/-- Step 2 of the history block: a history entry is inferred sold exactly
when its sector was scraped this run and its key is not in this run's
free-key set; it is attributed to the vendor stored in the entry. -/
def computeInferredSold (history : List (Str × Source)) (knownSectors : List Str)
    (currentFreeKeys : List Str) : List (Str × Source) :=
  history.foldl (fun acc p =>
    if sectorOfKey p.1 ∈ knownSectors ∧ p.1 ∉ currentFreeKeys
    then recSet acc p.1 p.2 else acc) []

/-! ## Period-over-period diff (`POST` handler, lines 1417–1442) -/

/-- `StatsHistoryEntry` (`src/seat-checker/src/lib/statsHistory.ts`). Taken
counts are JS numbers; `ℤ` so that raw differences may be negative. -/
structure StatsHistoryEntry where
  biletynaTaken : ℤ
  ebiletTaken : ℤ
  kupbilecikTaken : ℤ
  timestamp : String
deriving DecidableEq

/-- The `diff` object of `CombinedEventStats`. -/
structure StatsDiff where
  biletynaTaken : ℤ
  ebiletTaken : ℤ
  kupbilecikTaken : ℤ
  lastUpdated : String
deriving DecidableEq

/-- Step 4 of the `POST` handler: no previous snapshot yields no diff;
otherwise each vendor's delta is the raw difference clamped at zero, and
`lastUpdated` is the previous snapshot's timestamp. -/
def computeDiff (currentStatsEntry : StatsHistoryEntry)
    (prevStats : Option StatsHistoryEntry) : Option StatsDiff :=
  match prevStats with
  | none => none
  | some prev =>
    some { biletynaTaken := max 0 (currentStatsEntry.biletynaTaken - prev.biletynaTaken),
           ebiletTaken := max 0 (currentStatsEntry.ebiletTaken - prev.ebiletTaken),
           kupbilecikTaken := max 0 (currentStatsEntry.kupbilecikTaken - prev.kupbilecikTaken),
           lastUpdated := prev.timestamp }

/-! ## Seat colors and the override merger (`src/seat-checker/src/app/page.tsx`) -/

/-- `SEAT_COLORS.biletyna.free`. -/
def COLOR_biletyna_free : String := "#DDA0DD"

/-- `SEAT_COLORS.biletyna.taken`. -/
def COLOR_biletyna_taken : String := "#800080"

/-- `SEAT_COLORS.ebilet.free`. -/
def COLOR_ebilet_free : String := "#FFFF99"

/-- `SEAT_COLORS.ebilet.taken`. -/
def COLOR_ebilet_taken : String := "#DAA520"

/-- `SEAT_COLORS.kupbilecik.free`. -/
def COLOR_kupbilecik_free : String := "#FF9999"

/-- `SEAT_COLORS.kupbilecik.taken`. -/
def COLOR_kupbilecik_taken : String := "#8B0000"

/-- `SEAT_COLORS.noData`. -/
def COLOR_noData : String := "#808080"

/-- `SEAT_COLORS.notForSale`. -/
def COLOR_notForSale : String := "#000000"

/-- `SEAT_COLORS.otherSource`. -/
def COLOR_otherSource : String := "#5DADE2"

/-- `SEAT_COLORS.boxOffice`. -/
def COLOR_boxOffice : String := "#1ABC9C"

/-- `SEAT_COLORS[portal].free`. -/
def freeColorOf : Source → String
  | .biletyna => COLOR_biletyna_free
  | .ebilet => COLOR_ebilet_free
  | .kupbilecik => COLOR_kupbilecik_free

/-- `SEAT_COLORS[portal].taken`. -/
def takenColorOf : Source → String
  | .biletyna => COLOR_biletyna_taken
  | .ebilet => COLOR_ebilet_taken
  | .kupbilecik => COLOR_kupbilecik_taken

/-- `isDarkColor`: one of the three vendor taken colors. -/
def isDarkColor (color : String) : Bool :=
  color = COLOR_biletyna_taken ∨ color = COLOR_ebilet_taken ∨ color = COLOR_kupbilecik_taken

/-- `isLightColor`: one of the three vendor free colors. -/
def isLightColor (color : String) : Bool :=
  color = COLOR_biletyna_free ∨ color = COLOR_ebilet_free ∨ color = COLOR_kupbilecik_free

/-- `isNoDataColor`. -/
def isNoDataColor (color : String) : Bool :=
  color = COLOR_noData

/-- `isSpecialColor`: the manually painted special categories. -/
def isSpecialColor (color : String) : Bool :=
  color = COLOR_notForSale ∨ color = COLOR_otherSource ∨ color = COLOR_boxOffice

/-- `mergeColors` (`src/seat-checker/src/app/page.tsx` lines 837–870):
resolve a live color against an optional user override by the fixed
priority stack. -/
def mergeColors (liveColor : String) (userOverride : Option String) : String :=
  match userOverride with
  | none => liveColor
  | some ov =>
    if isSpecialColor ov then ov
    else if isDarkColor liveColor then liveColor
    else if isDarkColor ov then ov
    else if isLightColor ov then ov
    else liveColor

/-! ## Frontend sector visualization
(`calculateSectorVisualizationWithBase`, `src/seat-checker/src/app/page.tsx`
lines 230–392). The numeric sorting of rows and of seats within a row is
omitted from the model: it permutes only the iteration order of distinct
seat keys and therefore does not affect the computed color map, which is
what the claims are about. -/

/-- Per-seat status as seen by each portal ('free' | 'taken' | null). -/
inductive VStatus where
  | free
  | taken
deriving DecidableEq

/-- The per-portal status record stored in `seatStatuses`. -/
structure PortalStatuses where
  biletyna : Option VStatus
  ebilet : Option VStatus
  kupbilecik : Option VStatus
deriving DecidableEq

/-- `parts[0]` of the seat key split on `-`. -/
def rowOfSeat (ns : Str) : Str := (ns.splitOn '-').headI

/-- `parts.slice(1).join('-')` of the seat key split on `-`. -/
def nameOfSeat (ns : Str) : Str := List.intercalate ['-'] ((ns.splitOn '-').drop 1)

/-- The two maps built by the visualization: row → seat names, and
normalized seat key → per-portal statuses. -/
structure VizState where
  seatsPerRow : List (Str × List Str)
  seatStatuses : List (Str × PortalStatuses)

/-- Phase 1 of the visualization, one kupbilecik free seat: set its status
record to kupbilecik-free and push its seat name onto its row
(unconditionally). -/
def vizAddFree (st : VizState) (seat : Str) : VizState :=
  let ns := normalizeSeatKeyFE seat
  let row := rowOfSeat ns
  let cur := (lookupA st.seatsPerRow row).getD []
  { seatStatuses := recSet st.seatStatuses ns ⟨none, none, some .free⟩,
    seatsPerRow := recSet st.seatsPerRow row (cur ++ [nameOfSeat ns]) }

/-- Phase 2, one kupbilecik taken seat: overwrite its status record with
kupbilecik-taken and push its seat name onto its row unless already
present. -/
def vizAddTaken (st : VizState) (seat : Str) : VizState :=
  let ns := normalizeSeatKeyFE seat
  let row := rowOfSeat ns
  let cur := (lookupA st.seatsPerRow row).getD []
  { seatStatuses := recSet st.seatStatuses ns ⟨none, none, some .taken⟩,
    seatsPerRow :=
      if nameOfSeat ns ∈ cur then st.seatsPerRow
      else recSet st.seatsPerRow row (cur ++ [nameOfSeat ns]) }

/-- Write one portal's status into a status record. -/
def setPortal (ps : PortalStatuses) (portal : Source) (v : VStatus) : PortalStatuses :=
  match portal with
  | .biletyna => { ps with biletyna := some v }
  | .ebilet => { ps with ebilet := some v }
  | .kupbilecik => { ps with kupbilecik := some v }

/-- Update the value stored at key `k` in place (used only when present). -/
def recModify (m : List (Str × PortalStatuses)) (k : Str)
    (f : PortalStatuses → PortalStatuses) : List (Str × PortalStatuses) :=
  m.map (fun p => if p.1 = k then (p.1, f p.2) else p)

/-- Phase 3, one overlay seat: record the portal's status only when the
normalized key already belongs to the kupbilecik seat universe. -/
def overlaySeat (portal : Source) (v : VStatus)
    (sts : List (Str × PortalStatuses)) (seat : Str) : List (Str × PortalStatuses) :=
  let ns := normalizeSeatKeyFE seat
  if (lookupA sts ns).isSome then recModify sts ns (fun ps => setPortal ps portal v)
  else sts

/-- Phase 3, one matching vendor sector: overlay its free seats then its
taken seats. -/
def overlaySector (st : VizState) (portal : Source) (ms : SectorStatsM) : VizState :=
  let sts1 := ms.freeSeats.foldl (overlaySeat portal .free) st.seatStatuses
  { st with seatStatuses := ms.takenSeats.foldl (overlaySeat portal .taken) sts1 }

/-- The `perSource` record of `CombinedEventStats`. -/
structure PerSource where
  biletyna : Option SourceStatsM
  ebilet : Option SourceStatsM
  kupbilecik : Option SourceStatsM

/-- Select one portal's stats from `perSource`. -/
def portalStats (perSource : PerSource) : Source → Option SourceStatsM
  | .biletyna => perSource.biletyna
  | .ebilet => perSource.ebilet
  | .kupbilecik => perSource.kupbilecik

/-- Phase 3, one portal: overlay the portal's sector whose name equals the
kupbilecik sector's name exactly (backend rewrites names on match; no
similarity fallback). -/
def overlayPortal (kbName : Str) (perSource : PerSource) (st : VizState)
    (portal : Source) : VizState :=
  match portalStats perSource portal with
  | none => st
  | some ss =>
    match ss.sectors with
    | none => st
    | some sectors =>
      match sectors.find? (fun s => s.sectorName == kbName) with
      | none => st
      | some ms => overlaySector st portal ms

/-- `seatStatuses.get(seatKey) || { biletyna: null, ebilet: null,
kupbilecik: null }`. -/
def statusesFor (sts : List (Str × PortalStatuses)) (seatKey : Str) : PortalStatuses :=
  (lookupA sts seatKey).getD ⟨none, none, none⟩

/-- The first portal, in the fixed order biletyna, ebilet, kupbilecik,
whose status is 'free'. -/
def firstFreePortal (ps : PortalStatuses) : Option Source :=
  if ps.biletyna = some .free then some .biletyna
  else if ps.ebilet = some .free then some .ebilet
  else if ps.kupbilecik = some .free then some .kupbilecik
  else none

/-- Phase 4, one seat: free on any portal → that portal's free color;
otherwise an inferred-sold entry for `sectorName:seatKey` → the stored
vendor's taken color; otherwise the no-data color. -/
def colorOfSeat (sts : List (Str × PortalStatuses))
    (inferredSold : List (Str × Source)) (kbName : Str) (seatKey : Str) : String :=
  match firstFreePortal (statusesFor sts seatKey) with
  | some portal => freeColorOf portal
  | none =>
    match lookupA inferredSold (kbName ++ ':' :: seatKey) with
    | some soldSource => takenColorOf soldSource
    | none => COLOR_noData

/-- Phase 4: compute the color of every seat of the universe, iterating
`seatsPerRow`. -/
def computeSeatColors (st : VizState) (inferredSold : List (Str × Source))
    (kbName : Str) : List (Str × String) :=
  st.seatsPerRow.foldl (fun colors p =>
    p.2.foldl (fun colors seatName =>
      let seatKey := p.1 ++ '-' :: seatName
      recSet colors seatKey (colorOfSeat st.seatStatuses inferredSold kbName seatKey))
      colors) []

/-- `calculateSectorVisualizationWithBase`: build the seat universe and
status map from the kupbilecik sector, overlay biletyna and ebilet data
from their exactly-name-matching sectors, and compute the per-seat colors. -/
def calculateSectorVisualizationWithBase (kbSector : SectorStatsM)
    (perSource : PerSource) (inferredSold : List (Str × Source)) :
    VizState × List (Str × String) :=
  let st1 := kbSector.freeSeats.foldl vizAddFree ⟨[], []⟩
  let st2 := kbSector.takenSeats.foldl vizAddTaken st1
  let st3 := [Source.biletyna, Source.ebilet].foldl
    (overlayPortal kbSector.sectorName perSource) st2
  (st3, computeSeatColors st3 inferredSold kbSector.sectorName)

/-! # Lemmas -/

/-! ## Character-level lemmas -/

/-- Case analysis on a character: ASCII lowercase range, ASCII uppercase
range, one of the Polish letters, or a character fixed by both case maps. -/
theorem char_cases (P : Char → Prop)
    (hlow : ∀ v : ℕ, 97 ≤ v → v ≤ 122 → P (Char.ofNat v))
    (hupp : ∀ v : ℕ, 65 ≤ v → v ≤ 90 → P (Char.ofNat v))
    (hpol : P 'ą' ∧ P 'ć' ∧ P 'ę' ∧ P 'ł' ∧ P 'ń' ∧ P 'ó' ∧ P 'ś' ∧ P 'ź' ∧ P 'ż' ∧
      P 'Ą' ∧ P 'Ć' ∧ P 'Ę' ∧ P 'Ł' ∧ P 'Ń' ∧ P 'Ó' ∧ P 'Ś' ∧ P 'Ź' ∧ P 'Ż')
    (hother : ∀ c : Char, ¬ letterish c → P c) : ∀ c : Char, P c := by
  obtain ⟨p1, p2, p3, p4, p5, p6, p7, p8, p9, p10, p11, p12, p13, p14, p15, p16, p17, p18⟩ := hpol
  intro c
  by_cases h : letterish c
  · rcases h with ⟨h1, h2⟩ | ⟨h1, h2⟩ |
      h | h | h | h | h | h | h | h | h | h | h | h | h | h | h | h | h | h
    · have := hlow c.toNat h1 h2
      rwa [Char.ofNat_toNat] at this
    · have := hupp c.toNat h1 h2
      rwa [Char.ofNat_toNat] at this
    all_goals (subst h; assumption)
  · exact hother c h

/-- A character below the letter ranges (and below every Polish letter's
code point) is not letterish. -/
theorem not_letterish_of_le (c : Char) (hle : c.toNat ≤ 210)
    (h1 : ¬(97 ≤ c.toNat ∧ c.toNat ≤ 122)) (h2 : ¬(65 ≤ c.toNat ∧ c.toNat ≤ 90)) :
    ¬ letterish c := by
  intro h
  rcases h with h | h |
    h | h | h | h | h | h | h | h | h | h | h | h | h | h | h | h | h | h
  · exact h1 h
  · exact h2 h
  all_goals (subst h; revert hle; decide)

/-- `charUpper` fixes every non-letterish character. -/
theorem charUpper_of_not_letterish (c : Char) (h : ¬ letterish c) : charUpper c = c := by
  simp only [letterish, not_or] at h
  obtain ⟨h1, h2, e1, e2, e3, e4, e5, e6, e7, e8, e9, f1, f2, f3, f4, f5, f6, f7, f8, f9⟩ := h
  unfold charUpper
  rw [if_neg h1, if_neg e1, if_neg e2, if_neg e3, if_neg e4, if_neg e5, if_neg e6,
    if_neg e7, if_neg e8, if_neg e9]

/-- `charLower` fixes every non-letterish character. -/
theorem charLower_of_not_letterish (c : Char) (h : ¬ letterish c) : charLower c = c := by
  simp only [letterish, not_or] at h
  obtain ⟨h1, h2, e1, e2, e3, e4, e5, e6, e7, e8, e9, f1, f2, f3, f4, f5, f6, f7, f8, f9⟩ := h
  unfold charLower
  rw [if_neg h2, if_neg f1, if_neg f2, if_neg f3, if_neg f4, if_neg f5, if_neg f6,
    if_neg f7, if_neg f8, if_neg f9]

/-- Upper-casing is invariant under a round trip through `charLower`. -/
theorem charUpper_charLower_charUpper (c : Char) :
    charUpper (charLower (charUpper c)) = charUpper c := by
  refine char_cases (fun c => charUpper (charLower (charUpper c)) = charUpper c)
    ?_ ?_ ?_ ?_ c
  · intro v h1 h2
    interval_cases v <;> decide
  · intro v h1 h2
    interval_cases v <;> decide
  · refine ⟨?_, ?_, ?_, ?_, ?_, ?_, ?_, ?_, ?_, ?_, ?_, ?_, ?_, ?_, ?_, ?_, ?_, ?_⟩ <;> decide
  · intro c h
    rw [charUpper_of_not_letterish c h, charLower_of_not_letterish c h,
      charUpper_of_not_letterish c h]

/-- `charUpper` preserves whitespace-ness. -/
theorem isSpc_charUpper (c : Char) : isSpc (charUpper c) = isSpc c := by
  refine char_cases (fun c => isSpc (charUpper c) = isSpc c) ?_ ?_ ?_ ?_ c
  · intro v h1 h2
    interval_cases v <;> decide
  · intro v h1 h2
    interval_cases v <;> decide
  · refine ⟨?_, ?_, ?_, ?_, ?_, ?_, ?_, ?_, ?_, ?_, ?_, ?_, ?_, ?_, ?_, ?_, ?_, ?_⟩ <;> decide
  · intro c h
    rw [charUpper_of_not_letterish c h]

/-- `charLower` preserves whitespace-ness. -/
theorem isSpc_charLower (c : Char) : isSpc (charLower c) = isSpc c := by
  refine char_cases (fun c => isSpc (charLower c) = isSpc c) ?_ ?_ ?_ ?_ c
  · intro v h1 h2
    interval_cases v <;> decide
  · intro v h1 h2
    interval_cases v <;> decide
  · refine ⟨?_, ?_, ?_, ?_, ?_, ?_, ?_, ?_, ?_, ?_, ?_, ?_, ?_, ?_, ?_, ?_, ?_, ?_⟩ <;> decide
  · intro c h
    rw [charLower_of_not_letterish c h]

/-- `charUpper` fixes ASCII digits (and every character up to `@`). -/
theorem charUpper_fix_small (c : Char) (h : c.toNat ≤ 64) : charUpper c = c :=
  charUpper_of_not_letterish c (not_letterish_of_le c (by omega) (by omega) (by omega))

/-- `charUpper` fixes the five Roman-numeral characters. -/
theorem charUpper_fix_roman (c : Char) (h : isRomanC c = true) : charUpper c = c := by
  simp only [isRomanC, decide_eq_true_eq] at h
  rcases h with h | h | h | h | h <;> (subst h; decide)

/-- Roman-numeral characters are not digits. -/
theorem not_digit_of_roman (c : Char) (h : isRomanC c = true) : isDigitC c = false := by
  simp only [isRomanC, decide_eq_true_eq] at h
  rcases h with h | h | h | h | h <;> (subst h; decide)

/-- Digits are not whitespace. -/
theorem not_spc_of_digit (c : Char) (h : isDigitC c = true) : isSpc c = false := by
  simp only [isDigitC, decide_eq_true_eq] at h
  simp only [isSpc, decide_eq_false_iff_not]
  omega

/-- Roman-numeral characters are not whitespace. -/
theorem not_spc_of_roman (c : Char) (h : isRomanC c = true) : isSpc c = false := by
  simp only [isRomanC, decide_eq_true_eq] at h
  rcases h with h | h | h | h | h <;> (subst h; decide)

/-! ## List and trim lemmas -/

/-- Mapping a function that fixes every element of a list is the identity. -/
theorem map_self {α : Type} (f : α → α) (l : List α) (h : ∀ x ∈ l, f x = x) :
    l.map f = l := by
  induction l with
  | nil => rfl
  | cons a t ih =>
    simp only [List.map_cons, h a (List.mem_cons_self a t),
      ih (fun x hx => h x (List.mem_cons_of_mem a hx))]

/-- The head surviving `dropWhile p` falsifies `p`. -/
theorem head?_dropWhile_not {α : Type} (p : α → Bool) (l : List α) (x : α)
    (h : (l.dropWhile p).head? = some x) : p x = false := by
  induction l with
  | nil => simp [List.dropWhile] at h
  | cons a t ih =>
    rw [List.dropWhile_cons] at h
    by_cases hp : p a
    · rw [if_pos hp] at h
      exact ih h
    · rw [if_neg hp] at h
      simp only [List.head?_cons, Option.some.injEq] at h
      subst h
      exact Bool.not_eq_true _ ▸ eq_false_of_ne_true hp

/-- `dropWhile` preserves the last element when its result is nonempty. -/
theorem getLast?_dropWhile {α : Type} (p : α → Bool) (l : List α) (x : α)
    (h : (l.dropWhile p).getLast? = some x) : l.getLast? = some x := by
  obtain ⟨t, ht⟩ := List.dropWhile_suffix (l := l) p
  rw [← ht, List.getLast?_append, h]
  rfl

/-- The first character of a trimmed string is not whitespace. -/
theorem trim_head_not_spc (s : Str) (x : Char) (h : (trimStr s).head? = some x) :
    isSpc x = false := by
  unfold trimStr at h
  rw [List.head?_reverse] at h
  have h2 := getLast?_dropWhile isSpc (s.dropWhile isSpc).reverse x h
  rw [List.getLast?_reverse] at h2
  exact head?_dropWhile_not isSpc s x h2

/-- The last character of a trimmed string is not whitespace. -/
theorem trim_getLast_not_spc (s : Str) (x : Char) (h : (trimStr s).getLast? = some x) :
    isSpc x = false := by
  unfold trimStr at h
  rw [List.getLast?_reverse] at h
  exact head?_dropWhile_not isSpc (s.dropWhile isSpc).reverse x h

/-- `dropWhile` is the identity when the head already falsifies `p`. -/
theorem dropWhile_eq_self_of_head {α : Type} (p : α → Bool) (l : List α)
    (h : ∀ x, l.head? = some x → p x = false) : l.dropWhile p = l := by
  cases l with
  | nil => rfl
  | cons a t =>
    rw [List.dropWhile_cons, if_neg]
    simp [h a rfl]

/-- A string whose first and last characters are not whitespace is fixed by
`trimStr`. -/
theorem trim_eq_self (s : Str)
    (h1 : ∀ x, s.head? = some x → isSpc x = false)
    (h2 : ∀ x, s.getLast? = some x → isSpc x = false) : trimStr s = s := by
  unfold trimStr
  rw [dropWhile_eq_self_of_head isSpc s h1]
  rw [dropWhile_eq_self_of_head isSpc s.reverse
    (fun x hx => h2 x (by rwa [List.head?_reverse] at hx))]
  exact List.reverse_reverse s

/-- A string with no whitespace at all is fixed by `trimStr`. -/
theorem trim_of_all_not_spc (s : Str) (h : ∀ c ∈ s, isSpc c = false) : trimStr s = s := by
  refine trim_eq_self s (fun x hx => h x ?_) (fun x hx => h x ?_)
  · exact List.mem_of_mem_head? (hx ▸ rfl)
  · rw [List.getLast?_eq_head?_reverse] at hx
    exact List.mem_reverse.mp (List.mem_of_mem_head? (hx ▸ rfl))

/-- `takeWhile` is the identity on a list all of whose elements satisfy `p`. -/
theorem takeWhile_all {α : Type} (p : α → Bool) (l : List α)
    (h : ∀ c ∈ l, p c = true) : l.takeWhile p = l := by
  induction l with
  | nil => rfl
  | cons a t ih =>
    rw [List.takeWhile_cons, if_pos (h a (List.mem_cons_self a t))]
    rw [ih (fun x hx => h x (List.mem_cons_of_mem a hx))]

/-- Elements of `takeWhile p` satisfy `p`. -/
theorem mem_takeWhile {α : Type} (p : α → Bool) (l : List α) (x : α)
    (h : x ∈ l.takeWhile p) : p x = true := by
  induction l with
  | nil => simp [List.takeWhile] at h
  | cons a t ih =>
    rw [List.takeWhile_cons] at h
    by_cases hp : p a
    · rw [if_pos hp] at h
      rcases List.mem_cons.mp h with h | h
      · subst h; exact hp
      · exact ih h
    · rw [if_neg hp] at h
      simp at h

/-! ## Trailing-token lemmas -/

/-- A nonempty all-digit string is its own trailing token. -/
theorem trailingToken_all_digit (s : Str) (hne : s ≠ [])
    (h : ∀ c ∈ s, isDigitC c = true) : trailingToken s = some s := by
  have hrt : s.reverse.takeWhile isDigitC = s.reverse :=
    takeWhile_all _ _ (fun c hc => h c (List.mem_reverse.mp hc))
  unfold trailingToken
  rw [hrt, if_pos (by simpa using hne), List.reverse_reverse]

/-- A nonempty all-Roman string is its own trailing token. -/
theorem trailingToken_all_roman (s : Str) (hne : s ≠ [])
    (h : ∀ c ∈ s, isRomanC c = true) : trailingToken s = some s := by
  have hrt : s.reverse.takeWhile isRomanC = s.reverse :=
    takeWhile_all _ _ (fun c hc => h c (List.mem_reverse.mp hc))
  have hdig : s.reverse.takeWhile isDigitC = [] := by
    cases hx : s.reverse with
    | nil => simp
    | cons a t =>
      rw [List.takeWhile_cons, if_neg]
      have ha : a ∈ s := List.mem_reverse.mp (hx ▸ List.mem_cons_self a t)
      simp [not_digit_of_roman a (h a ha)]
  unfold trailingToken
  rw [hdig, if_neg (by simp), hrt, if_pos (by simpa using hne), List.reverse_reverse]

/-- A trailing token is nonempty and homogeneous: all digits or all
Roman-class characters. -/
theorem trailingToken_some (t tok : Str) (h : trailingToken t = some tok) :
    tok ≠ [] ∧ ((∀ c ∈ tok, isDigitC c = true) ∨ (∀ c ∈ tok, isRomanC c = true)) := by
  unfold trailingToken at h
  split_ifs at h with hd hr
  · simp only [Option.some.injEq] at h
    subst h
    refine ⟨by simpa using hd, Or.inl ?_⟩
    intro c hc
    exact mem_takeWhile _ _ _ (List.mem_reverse.mp hc)
  · simp only [Option.some.injEq] at h
    subst h
    refine ⟨by simpa using hr, Or.inr ?_⟩
    intro c hc
    exact mem_takeWhile _ _ _ (List.mem_reverse.mp hc)

/-! ## Roman-map lookup lemmas -/

/-- A successful `lookupA` comes from a binding in the list. -/
theorem lookupA_mem {α : Type} (l : List (Str × α)) (k : Str) (v : α)
    (h : lookupA l k = some v) : (k, v) ∈ l := by
  induction l with
  | nil => simp [lookupA] at h
  | cons p t ih =>
    rcases p with ⟨k1, v1⟩
    simp only [lookupA] at h
    by_cases hk : k = k1
    · rw [if_pos hk] at h
      simp only [Option.some.injEq] at h
      subst hk; subst h
      exact List.mem_cons_self _ _
    · rw [if_neg hk] at h
      exact List.mem_cons_of_mem _ (ih h)

/-- Facts about the 30 bindings of `ROMAN_MAP`: nonempty keys, keys not
starting with a digit, values within 1..30. -/
theorem ROMAN_MAP_facts :
    ∀ p ∈ ROMAN_MAP, p.1 ≠ [] ∧ isDigitC p.1.headI = false ∧ 1 ≤ p.2 ∧ p.2 ≤ 30 := by
  decide

/-- A string starting with a digit is not a Roman-map key. -/
theorem lookupA_ROMAN_none_of_digit (s : Str) (c : Char)
    (hh : s.head? = some c) (hd : isDigitC c = true) :
    lookupA ROMAN_MAP s = none := by
  cases h : lookupA ROMAN_MAP s with
  | none => rfl
  | some v =>
    exfalso
    have hfacts := ROMAN_MAP_facts (s, v) (lookupA_mem _ _ _ h)
    cases s with
    | nil => simp at hh
    | cons a t =>
      simp only [List.head?_cons, Option.some.injEq] at hh
      subst hh
      rw [List.headI] at hfacts
      rw [hfacts.2.1] at hd
      exact Bool.false_ne_true hd

/-- A Roman-map value lies within 1..30. -/
theorem lookupA_ROMAN_bounds (s : Str) (n : ℕ) (h : lookupA ROMAN_MAP s = some n) :
    1 ≤ n ∧ n ≤ 30 := by
  have hfacts := ROMAN_MAP_facts (s, n) (lookupA_mem _ _ _ h)
  exact ⟨hfacts.2.2.1, hfacts.2.2.2⟩

/-! ## Fixed points of the backend row-name normalizer -/

/-- The decimal renderings 1..30 (every possible Roman-map result) are
fixed by `normalizeRowName`. -/
theorem normalizeRowName_natToStr (n : ℕ) (h1 : 1 ≤ n) (h2 : n ≤ 30) :
    normalizeRowName (natToStr n) = natToStr n := by
  interval_cases n <;> decide

/-- Nonempty all-digit strings are fixed by `normalizeRowName`. -/
theorem normalizeRowName_fix_digit (s : Str) (hne : s ≠ [])
    (h : ∀ c ∈ s, isDigitC c = true) : normalizeRowName s = s := by
  have htrim : trimStr s = s := trim_of_all_not_spc s (fun c hc => not_spc_of_digit c (h c hc))
  have hmap : s.map charUpper = s := map_self _ _ (fun c hc => charUpper_fix_small c (by
    have := h c hc
    simp only [isDigitC, decide_eq_true_eq] at this
    omega))
  have hhead : ∃ c, s.head? = some c ∧ isDigitC c = true := by
    cases s with
    | nil => exact absurd rfl hne
    | cons a t => exact ⟨a, rfl, h a (List.mem_cons_self a t)⟩
  obtain ⟨c0, hc0, hd0⟩ := hhead
  have hlook : lookupA ROMAN_MAP s = none := lookupA_ROMAN_none_of_digit s c0 hc0 hd0
  simp only [normalizeRowName, htrim, hmap, hlook, trailingToken_all_digit s hne h]

/-- Nonempty all-Roman strings that are not Roman-map keys are fixed by
`normalizeRowName`. -/
theorem normalizeRowName_fix_roman (s : Str) (hne : s ≠ [])
    (h : ∀ c ∈ s, isRomanC c = true) (hlook : lookupA ROMAN_MAP s = none) :
    normalizeRowName s = s := by
  have htrim : trimStr s = s := trim_of_all_not_spc s (fun c hc => not_spc_of_roman c (h c hc))
  have hmap : s.map charUpper = s := map_self _ _ (fun c hc => charUpper_fix_roman c (h c hc))
  simp only [normalizeRowName, htrim, hmap, hlook, trailingToken_all_roman s hne h]

/-- The backend row-name normalizer is idempotent. -/
theorem normalizeRowName_idem (r : Str) :
    normalizeRowName (normalizeRowName r) = normalizeRowName r := by
  cases h1 : lookupA ROMAN_MAP ((trimStr r).map charUpper) with
  | some n =>
    have hb := lookupA_ROMAN_bounds _ n h1
    have hout : normalizeRowName r = natToStr n := by
      simp only [normalizeRowName, h1]
    rw [hout]
    exact normalizeRowName_natToStr n hb.1 hb.2
  | none =>
    cases h2 : trailingToken ((trimStr r).map charUpper) with
    | some tok =>
      obtain ⟨hne, hcase⟩ := trailingToken_some _ tok h2
      cases h3 : lookupA ROMAN_MAP tok with
      | some n =>
        have hb := lookupA_ROMAN_bounds _ n h3
        have hout : normalizeRowName r = natToStr n := by
          simp only [normalizeRowName, h1, h2, h3]
        rw [hout]
        exact normalizeRowName_natToStr n hb.1 hb.2
      | none =>
        have hout : normalizeRowName r = tok := by
          simp only [normalizeRowName, h1, h2, h3]
        rw [hout]
        rcases hcase with hd | hro
        · exact normalizeRowName_fix_digit tok hne hd
        · exact normalizeRowName_fix_roman tok hne hro h3
    | none =>
      have hout : normalizeRowName r = ((trimStr r).map charUpper).map charLower := by
        simp only [normalizeRowName, h1, h2]
      rw [hout]
      have htrimL : trimStr (((trimStr r).map charUpper).map charLower)
          = ((trimStr r).map charUpper).map charLower := by
        refine trim_eq_self _ ?_ ?_
        · intro x hx
          rw [List.head?_map, Option.map_eq_some'] at hx
          obtain ⟨y, hy, hxy⟩ := hx
          rw [List.head?_map, Option.map_eq_some'] at hy
          obtain ⟨z, hz, hyz⟩ := hy
          subst hxy
          subst hyz
          rw [isSpc_charLower, isSpc_charUpper]
          exact trim_head_not_spc r z hz
        · intro x hx
          rw [List.getLast?_map, Option.map_eq_some'] at hx
          obtain ⟨y, hy, hxy⟩ := hx
          rw [List.getLast?_map, Option.map_eq_some'] at hy
          obtain ⟨z, hz, hyz⟩ := hy
          subst hxy
          subst hyz
          rw [isSpc_charLower, isSpc_charUpper]
          exact trim_getLast_not_spc r z hz
      have hupL : ((((trimStr r).map charUpper).map charLower).map charUpper)
          = (trimStr r).map charUpper := by
        rw [List.map_map, List.map_map]
        exact List.map_congr_left (fun a _ => charUpper_charLower_charUpper a)
      simp only [normalizeRowName, htrimL, hupL, h1, h2]

/-! ## Association-map lemmas -/

/-- Unfolding lemma for `lookupA` on a cons cell. -/
theorem lookupA_cons {α : Type} (a : Str) (b : α) (t : List (Str × α)) (k : Str) :
    lookupA ((a, b) :: t) k = if k = a then some b else lookupA t k := rfl

/-- Keys other than the overwritten one are unaffected by the in-place
update branch of `recSet`. -/
theorem lookupA_map_setKey {α : Type} (t : List (Str × α)) (k k2 : Str) (v : α)
    (hne : k2 ≠ k) :
    lookupA (t.map (fun p => if p.1 = k then (k, v) else p)) k2 = lookupA t k2 := by
  induction t with
  | nil => rfl
  | cons p r ih =>
    rcases p with ⟨k1, v1⟩
    rw [List.map_cons]
    by_cases h : k1 = k
    · rw [show (if (k1, v1).1 = k then (k, v) else (k1, v1)) = (k, v) from if_pos h]
      rw [lookupA_cons, lookupA_cons, if_neg hne, if_neg (h ▸ hne), ih]
    · rw [show (if (k1, v1).1 = k then (k, v) else (k1, v1)) = (k1, v1) from if_neg h]
      rw [lookupA_cons, lookupA_cons]
      by_cases h2 : k2 = k1
      · rw [if_pos h2, if_pos h2]
      · rw [if_neg h2, if_neg h2, ih]

/-- The in-place update branch of `recSet` makes the key map to the new
value, provided the key was present. -/
theorem lookupA_map_setKey_self {α : Type} (t : List (Str × α)) (k : Str) (v : α)
    (hs : (lookupA t k).isSome) :
    lookupA (t.map (fun p => if p.1 = k then (k, v) else p)) k = some v := by
  induction t with
  | nil => simp [lookupA] at hs
  | cons p r ih =>
    rcases p with ⟨k1, v1⟩
    rw [List.map_cons]
    by_cases h : k1 = k
    · rw [show (if (k1, v1).1 = k then (k, v) else (k1, v1)) = (k, v) from if_pos h]
      rw [lookupA_cons, if_pos rfl]
    · rw [show (if (k1, v1).1 = k then (k, v) else (k1, v1)) = (k1, v1) from if_neg h]
      rw [lookupA_cons, if_neg (fun e => h e.symm)]
      rw [lookupA_cons, if_neg (fun e => h e.symm)] at hs
      exact ih hs

/-- Lookup distributes over append as a left-biased choice. -/
theorem lookupA_append {α : Type} (a b : List (Str × α)) (k2 : Str) :
    lookupA (a ++ b) k2 = (lookupA a k2).or (lookupA b k2) := by
  induction a with
  | nil => simp [lookupA, Option.or]
  | cons p t ih =>
    rcases p with ⟨k1, v1⟩
    rw [List.cons_append, lookupA_cons, lookupA_cons]
    by_cases h : k2 = k1
    · rw [if_pos h, if_pos h]
      rfl
    · rw [if_neg h, if_neg h]
      exact ih

/-- Lookup after a `recSet` write: the written key maps to the written
value, all other keys are unchanged. -/
theorem lookupA_recSet {α : Type} (m : List (Str × α)) (k k2 : Str) (v : α) :
    lookupA (recSet m k v) k2 = if k2 = k then some v else lookupA m k2 := by
  unfold recSet
  by_cases hs : (lookupA m k).isSome
  · rw [if_pos hs]
    by_cases h2 : k2 = k
    · rw [if_pos h2]
      subst h2
      exact lookupA_map_setKey_self m k2 v hs
    · rw [if_neg h2]
      exact lookupA_map_setKey m k k2 v h2
  · rw [if_neg hs]
    rw [lookupA_append]
    by_cases h2 : k2 = k
    · subst h2
      rw [Option.not_isSome_iff_eq_none] at hs
      rw [hs, if_pos rfl]
      simp [lookupA, Option.or]
    · rw [if_neg h2]
      rw [lookupA_cons, if_neg h2]
      exact Option.or_none

/-- A key is absent exactly when lookup fails. -/
theorem lookupA_eq_none_iff {α : Type} (m : List (Str × α)) (k : Str) :
    lookupA m k = none ↔ k ∉ m.map Prod.fst := by
  induction m with
  | nil => simp [lookupA]
  | cons p t ih =>
    rcases p with ⟨k1, v1⟩
    rw [List.map_cons, lookupA_cons]
    by_cases h : k = k1
    · rw [if_pos h]
      constructor
      · intro hx
        exact Option.noConfusion hx
      · intro hx
        exact absurd (List.mem_cons.mpr (Or.inl h)) hx
    · rw [if_neg h, ih]
      constructor
      · intro hx hmem
        rcases List.mem_cons.mp hmem with e | e
        · exact h e
        · exact hx e
      · intro hx e
        exact hx (List.mem_cons.mpr (Or.inr e))

/-- Under distinct keys, a binding determines the lookup. -/
theorem lookupA_of_mem_nodup {α : Type} (m : List (Str × α)) (k : Str) (v : α)
    (hmem : (k, v) ∈ m) (hnd : (m.map Prod.fst).Nodup) : lookupA m k = some v := by
  induction m with
  | nil => simp at hmem
  | cons p t ih =>
    rcases p with ⟨k1, v1⟩
    simp only [List.map_cons, List.nodup_cons] at hnd
    rcases List.mem_cons.mp hmem with h | h
    · rw [Prod.mk.injEq] at h
      obtain ⟨h1, h2⟩ := h
      subst h1
      subst h2
      simp [lookupA]
    · have hk : k ≠ k1 := by
        intro e
        subst e
        exact hnd.1 (List.mem_map_of_mem Prod.fst h)
      simp only [lookupA, if_neg hk]
      exact ih h hnd.2

/-- `recSet` preserves distinctness of keys. -/
theorem nodupKeys_recSet {α : Type} (m : List (Str × α)) (k : Str) (v : α)
    (h : (m.map Prod.fst).Nodup) : ((recSet m k v).map Prod.fst).Nodup := by
  unfold recSet
  by_cases hs : (lookupA m k).isSome
  · rw [if_pos hs]
    have : (m.map (fun p => if p.1 = k then (k, v) else p)).map Prod.fst = m.map Prod.fst := by
      rw [List.map_map]
      refine List.map_congr_left ?_
      intro p _
      by_cases hp : p.1 = k
      · simp [hp]
      · simp [hp]
    rw [this]
    exact h
  · rw [if_neg hs]
    rw [List.map_append]
    refine List.Nodup.append h (by simp) ?_
    intro x hx hk
    simp only [List.map_cons, List.map_nil, List.mem_singleton] at hk
    subst hk
    rw [Option.not_isSome_iff_eq_none, lookupA_eq_none_iff] at hs
    exact hs hx

/-- `recSet` with an absent key is an append. -/
theorem recSet_absent {α : Type} (m : List (Str × α)) (k : Str) (v : α)
    (h : lookupA m k = none) : recSet m k v = m ++ [(k, v)] := by
  unfold recSet
  rw [h]
  rfl

/-- Membership in `addSet`. -/
theorem mem_addSet (s : List Str) (k x : Str) : x ∈ addSet s k ↔ x ∈ s ∨ x = k := by
  unfold addSet
  by_cases h : k ∈ s
  · rw [if_pos h]
    constructor
    · exact Or.inl
    · rintro (hx | rfl)
      · exact hx
      · exact h
  · rw [if_neg h]
    simp

/-- The base set grows under `addSet`. -/
theorem subset_addSet (s : List Str) (k : Str) : ∀ x ∈ s, x ∈ addSet s k := by
  intro x hx
  exact (mem_addSet s k x).mpr (Or.inl hx)

/-- Lookup through a sequence of writes (`applyUpd`): the last write to the
key wins, falling back to the original map. -/
theorem lookupA_applyUpd (m : List (Str × Source)) (us : List (Str × Source)) (k : Str) :
    lookupA (applyUpd m us) k = (lookupA us.reverse k).or (lookupA m k) := by
  induction us generalizing m with
  | nil => simp [applyUpd, lookupA, Option.or]
  | cons u t ih =>
    rcases u with ⟨k1, v1⟩
    show lookupA (applyUpd (recSet m k1 v1) t) k = _
    rw [ih]
    rw [List.reverse_cons, lookupA_append, Option.or_assoc]
    congr 1
    rw [lookupA_recSet]
    by_cases h : k = k1
    · simp [lookupA, h]
    · simp [lookupA, h, Option.or]

/-- `applyUpd` over an append is sequential application. -/
theorem applyUpd_append (m : List (Str × Source)) (a b : List (Str × Source)) :
    applyUpd m (a ++ b) = applyUpd (applyUpd m a) b := by
  unfold applyUpd
  exact List.foldl_append _ _ _ _

/-! ## History-update lemmas -/

/-- An invariant preserved by every step of a fold holds of the result. -/
theorem foldl_preserve {α β : Type} (P : α → Prop) (f : α → β → α) (l : List β)
    (init : α) (h0 : P init) (hstep : ∀ a b, P a → P (f a b)) : P (l.foldl f init) := by
  induction l generalizing init with
  | nil => exact h0
  | cons x t ih => exact ih _ (hstep _ _ h0)

/-- The history component after one sector's seats loop is a sequence of
writes onto the incoming history. -/
theorem seatsFold_history (src : Source) (name : Str) (seats : List Str) :
    ∀ st : HistState,
      (seats.foldl (histSeatStep src name) st).history
        = applyUpd st.history (seats.map (fun sk => (name ++ ':' :: normalizeSeatKey sk, src))) := by
  induction seats with
  | nil =>
    intro st
    rfl
  | cons sk t ih =>
    intro st
    show (t.foldl (histSeatStep src name) (histSeatStep src name st sk)).history = _
    rw [ih]
    rfl

/-- The history component after one sector of the history loop. -/
theorem histSectorStep_history (src : Source) (st : HistState) (sec : SectorStatsM) :
    (histSectorStep src st sec).history = applyUpd st.history (updatesOfSector src sec) := by
  unfold histSectorStep updatesOfSector
  rw [seatsFold_history]

/-- The history component after a list of sectors of the history loop. -/
theorem sectorsFold_history (src : Source) (sectors : List SectorStatsM) :
    ∀ st : HistState,
      (sectors.foldl (histSectorStep src) st).history
        = applyUpd st.history ((sectors.map (updatesOfSector src)).flatten) := by
  induction sectors with
  | nil =>
    intro st
    rfl
  | cons sec t ih =>
    intro st
    show (t.foldl (histSectorStep src) (histSectorStep src st sec)).history = _
    rw [ih, histSectorStep_history, List.map_cons, List.flatten_cons, applyUpd_append]

/-- The history component after one source of the history loop. -/
theorem histSourceStep_history (st : HistState) (p : Source × Option SourceStatsM) :
    (histSourceStep st p).history = applyUpd st.history (updatesOfSource p) := by
  rcases p with ⟨src, data⟩
  cases data with
  | none => rfl
  | some d =>
    cases hd : d.sectors with
    | none =>
      simp only [histSourceStep, updatesOfSource, hd]
      rfl
    | some sectors =>
      simp only [histSourceStep, updatesOfSource, hd]
      exact sectorsFold_history src sectors st

/-- The saved history of a run is the loaded history with all of the run's
free-seat writes applied in execution order. -/
theorem runHistoryUpdate_history (h0 : List (Str × Source))
    (results : List (Source × Option SourceStatsM)) :
    (runHistoryUpdate h0 results).history = applyUpd h0 (updatesOfResults results) := by
  suffices h : ∀ (l : List (Source × Option SourceStatsM)) (st : HistState),
      (l.foldl histSourceStep st).history = applyUpd st.history ((l.map updatesOfSource).flatten) by
    exact h results ⟨h0, [], []⟩
  intro l
  induction l with
  | nil =>
    intro st
    rfl
  | cons p t ih =>
    intro st
    show (t.foldl histSourceStep (histSourceStep st p)).history = _
    rw [ih, histSourceStep_history, List.map_cons, List.flatten_cons, applyUpd_append]

/-- Lookup in the saved history: the last writer of the key wins, falling
back to the loaded history. -/
theorem lookupA_runHistoryUpdate (h0 : List (Str × Source))
    (results : List (Source × Option SourceStatsM)) (k : Str) :
    lookupA (runHistoryUpdate h0 results).history k
      = ((lookupA (updatesOfResults results).reverse k).or (lookupA h0 k)) := by
  rw [runHistoryUpdate_history, lookupA_applyUpd]

/-- The run's write list contains exactly the keys of seats reported free
by some vendor's sector split, tagged with that vendor. -/
theorem mem_updatesOfResults (results : List (Source × Option SourceStatsM))
    (k : Str) (v : Source) :
    (k, v) ∈ updatesOfResults results ↔
      ∃ d sectors sec sk, (v, some d) ∈ results ∧ d.sectors = some sectors ∧
        sec ∈ sectors ∧ sk ∈ sec.freeSeats ∧
        k = sec.sectorName ++ ':' :: normalizeSeatKey sk := by
  unfold updatesOfResults
  rw [List.mem_flatten]
  constructor
  · rintro ⟨l, hl, hkv⟩
    rw [List.mem_map] at hl
    obtain ⟨p, hp, rfl⟩ := hl
    rcases p with ⟨src, data⟩
    cases data with
    | none => simp [updatesOfSource] at hkv
    | some d =>
      cases hd : d.sectors with
      | none =>
        simp only [updatesOfSource, hd] at hkv
        simp at hkv
      | some sectors =>
        simp only [updatesOfSource, hd] at hkv
        rw [List.mem_flatten] at hkv
        obtain ⟨l2, hl2, hkv2⟩ := hkv
        rw [List.mem_map] at hl2
        obtain ⟨sec, hsec, rfl⟩ := hl2
        unfold updatesOfSector at hkv2
        rw [List.mem_map] at hkv2
        obtain ⟨sk, hsk, hEq⟩ := hkv2
        rw [Prod.mk.injEq] at hEq
        exact ⟨d, sectors, sec, sk, hEq.2 ▸ hp, hd, hsec, hsk, hEq.1.symm⟩
  · rintro ⟨d, sectors, sec, sk, hmem, hsec, hsecmem, hskmem, rfl⟩
    refine ⟨updatesOfSource (v, some d), List.mem_map_of_mem _ hmem, ?_⟩
    simp only [updatesOfSource, hsec]
    rw [List.mem_flatten]
    exact ⟨updatesOfSector v sec, List.mem_map_of_mem _ hsecmem,
      List.mem_map_of_mem _ hskmem⟩

/-- The saved history of a run has distinct keys whenever the loaded
history does. -/
theorem runHistoryUpdate_nodup (h0 : List (Str × Source))
    (results : List (Source × Option SourceStatsM))
    (h : (h0.map Prod.fst).Nodup) :
    ((runHistoryUpdate h0 results).history.map Prod.fst).Nodup := by
  unfold runHistoryUpdate
  refine foldl_preserve (fun st : HistState => ((st.history).map Prod.fst).Nodup)
    histSourceStep results _ h ?_
  intro st p hst
  rcases p with ⟨src, data⟩
  cases data with
  | none => exact hst
  | some d =>
    cases hd : d.sectors with
    | none =>
      simp only [histSourceStep, hd]
      exact hst
    | some sectors =>
      simp only [histSourceStep, hd]
      refine foldl_preserve (fun st : HistState => ((st.history).map Prod.fst).Nodup)
        (histSectorStep src) sectors _ hst ?_
      intro st2 sec hst2
      unfold histSectorStep
      refine foldl_preserve (fun st : HistState => ((st.history).map Prod.fst).Nodup)
        (histSeatStep src sec.sectorName) sec.freeSeats _ hst2 ?_
      intro st3 sk hst3
      exact nodupKeys_recSet _ _ _ hst3

/-! ## Inferred-sold lemmas -/

/-- Under distinct history keys the inferred-sold loop is a filter of the
history. -/
theorem inferredSold_eq_filter (hist : List (Str × Source)) (known free : List Str)
    (hnd : (hist.map Prod.fst).Nodup) :
    computeInferredSold hist known free
      = hist.filter (fun p => decide (sectorOfKey p.1 ∈ known ∧ p.1 ∉ free)) := by
  suffices h : ∀ (l : List (Str × Source)) (acc : List (Str × Source)),
      (l.map Prod.fst).Nodup →
      (∀ q ∈ l, lookupA acc q.1 = none) →
      l.foldl (fun acc p =>
        if sectorOfKey p.1 ∈ known ∧ p.1 ∉ free then recSet acc p.1 p.2 else acc) acc
        = acc ++ l.filter (fun p => decide (sectorOfKey p.1 ∈ known ∧ p.1 ∉ free)) by
    have h2 := h hist [] hnd (fun q _ => rfl)
    unfold computeInferredSold
    rw [h2]
    rfl
  intro l
  induction l with
  | nil =>
    intro acc _ _
    simp
  | cons p t ih =>
    intro acc hnd2 habs
    rcases p with ⟨k, v⟩
    rw [List.map_cons, List.nodup_cons] at hnd2
    show (t.foldl _ (if sectorOfKey k ∈ known ∧ k ∉ free then recSet acc k v else acc)) = _
    have habs_t : ∀ q ∈ t, lookupA (acc ++ [(k, v)]) q.1 = none := by
      intro q hq
      rw [lookupA_append, habs q (List.mem_cons_of_mem _ hq)]
      rw [lookupA_cons, if_neg ?_]
      · rfl
      · intro e
        have hk_not : k ∉ List.map Prod.fst t := hnd2.1
        exact hk_not (e ▸ List.mem_map_of_mem Prod.fst hq)
    by_cases hc : sectorOfKey k ∈ known ∧ k ∉ free
    · rw [if_pos hc]
      rw [recSet_absent acc k v (habs (k, v) (List.mem_cons_self _ _))]
      rw [ih (acc ++ [(k, v)]) hnd2.2 habs_t]
      rw [List.filter_cons_of_pos (by simpa using hc)]
      rw [List.append_assoc]
      rfl
    · rw [if_neg hc]
      rw [ih acc hnd2.2 (fun q hq => habs q (List.mem_cons_of_mem _ hq))]
      rw [List.filter_cons_of_neg (by simpa using hc)]

/-- Lookup in the inferred-sold map, under distinct history keys: an entry
exists exactly for scraped-sector keys absent from the free set, holding
the history's stored vendor. -/
theorem lookupA_inferredSold (hist : List (Str × Source)) (known free : List Str)
    (k : Str) (v : Source) (hnd : (hist.map Prod.fst).Nodup) :
    lookupA (computeInferredSold hist known free) k = some v ↔
      (sectorOfKey k ∈ known ∧ k ∉ free ∧ lookupA hist k = some v) := by
  rw [inferredSold_eq_filter hist known free hnd]
  constructor
  · intro h
    have hmem := lookupA_mem _ _ _ h
    rw [List.mem_filter] at hmem
    obtain ⟨hm, hcond⟩ := hmem
    rw [decide_eq_true_eq] at hcond
    exact ⟨hcond.1, hcond.2, lookupA_of_mem_nodup _ _ _ hm hnd⟩
  · rintro ⟨h1, h2, h3⟩
    have hmem := lookupA_mem _ _ _ h3
    have hf : (k, v) ∈ hist.filter (fun p => decide (sectorOfKey p.1 ∈ known ∧ p.1 ∉ free)) :=
      List.mem_filter.mpr ⟨hmem, by simp [h1, h2]⟩
    refine lookupA_of_mem_nodup _ _ _ hf ?_
    exact List.Nodup.sublist (List.Sublist.map Prod.fst (List.filter_sublist hist)) hnd

/-- A key whose sector was not scraped this run is never inferred sold
(no distinctness assumption needed). -/
theorem inferredSold_unknown (hist : List (Str × Source)) (known free : List Str)
    (k : Str) (hk : sectorOfKey k ∉ known) :
    lookupA (computeInferredSold hist known free) k = none := by
  unfold computeInferredSold
  have hinv := foldl_preserve
    (fun acc => ∀ v, lookupA acc k = some v → sectorOfKey k ∈ known)
    (fun acc p =>
      if sectorOfKey p.1 ∈ known ∧ p.1 ∉ free then recSet acc p.1 p.2 else acc)
    hist [] (fun v h => Option.noConfusion h) ?_
  · cases hl : lookupA (hist.foldl (fun acc p =>
        if sectorOfKey p.1 ∈ known ∧ p.1 ∉ free then recSet acc p.1 p.2 else acc) []) k with
    | none => rfl
    | some v => exact absurd (hinv v hl) hk
  · intro acc p hP v hv
    dsimp only [] at hv
    by_cases hc : sectorOfKey p.1 ∈ known ∧ p.1 ∉ free
    · rw [if_pos hc, lookupA_recSet] at hv
      by_cases he : k = p.1
      · rw [he]
        exact hc.1
      · rw [if_neg he] at hv
        exact hP v hv
    · rw [if_neg hc] at hv
      exact hP v hv

/-! ## Sector-matching lemmas -/

/-- An invariant preserved by every step of a fold, over a list of elements
with a common property, holds of the result. -/
theorem foldl_preserve_mem {α β : Type} (P : α → Prop) (f : α → β → α) (S : β → Prop)
    (l : List β) (hl : ∀ b ∈ l, S b) (init : α) (h0 : P init)
    (hstep : ∀ a b, S b → P a → P (f a b)) : P (l.foldl f init) := by
  induction l generalizing init with
  | nil => exact h0
  | cons x t ih =>
    exact ih (fun b hb => hl b (List.mem_cons_of_mem x hb)) _
      (hstep _ _ (hl x (List.mem_cons_self x t)) h0)

/-- Candidate-loop invariant: a current best candidate is a candidate from
the list, unclaimed, passing the hard 30% row-count filter, and the
current best score is its score. -/
theorem matchFold_invariant (vRows : List (Str × RowStats))
    (kbSectors : List SectorStatsM) (matched : List Str) :
    ∀ s : SectorStatsM, (matchFold vRows kbSectors matched).1 = some s →
      s ∈ kbSectors ∧ s.sectorName ∉ matched ∧
      rowCountRelDiff vRows.length s.rows.length ≤ 3/10 ∧
      (matchFold vRows kbSectors matched).2 = sectorScore vRows s := by
  unfold matchFold
  refine foldl_preserve_mem
    (fun acc : Option SectorStatsM × ℚ => ∀ s, acc.1 = some s →
      s ∈ kbSectors ∧ s.sectorName ∉ matched ∧
      rowCountRelDiff vRows.length s.rows.length ≤ 3/10 ∧
      acc.2 = sectorScore vRows s)
    _ (fun b => b ∈ kbSectors) kbSectors (fun b hb => hb) (none, 0)
    (fun s hs => Option.noConfusion hs) ?_
  intro acc b hS hP s hs
  dsimp only [] at hs ⊢
  by_cases h1 : b.sectorName ∈ matched
  · rw [if_pos h1] at hs ⊢
    exact hP s hs
  · rw [if_neg h1] at hs ⊢
    by_cases h2 : rowCountRelDiff vRows.length b.rows.length > 3/10
    · rw [if_pos h2] at hs ⊢
      exact hP s hs
    · rw [if_neg h2] at hs ⊢
      by_cases h3 : sectorScore vRows b > acc.2
      · rw [if_pos h3] at hs ⊢
        simp only [Option.some.injEq] at hs
        subst hs
        exact ⟨hS, h1, not_lt.mp h2, rfl⟩
      · rw [if_neg h3] at hs ⊢
        exact hP s hs

/-- The running best score never decreases along the candidate loop. -/
theorem matchScan_le (vRows : List (Str × RowStats)) (matched : List Str)
    (l : List SectorStatsM) :
    ∀ acc : Option SectorStatsM × ℚ,
      acc.2 ≤ (l.foldl (fun best sector =>
        if sector.sectorName ∈ matched then best
        else if rowCountRelDiff vRows.length sector.rows.length > 3/10 then best
        else if sectorScore vRows sector > best.2 then (some sector, sectorScore vRows sector)
        else best) acc).2 := by
  induction l with
  | nil =>
    intro acc
    exact le_refl _
  | cons b t ih =>
    intro acc
    refine le_trans ?_ (ih _)
    dsimp only []
    split_ifs with h1 h2 h3
    · exact le_refl _
    · exact le_refl _
    · exact le_of_lt h3
    · exact le_refl _

/-- The final best score dominates the score of every unclaimed candidate
passing the hard filter. -/
theorem matchScan_max (vRows : List (Str × RowStats)) (matched : List Str)
    (l : List SectorStatsM) :
    ∀ acc : Option SectorStatsM × ℚ, ∀ c ∈ l, c.sectorName ∉ matched →
      rowCountRelDiff vRows.length c.rows.length ≤ 3/10 →
      sectorScore vRows c ≤ (l.foldl (fun best sector =>
        if sector.sectorName ∈ matched then best
        else if rowCountRelDiff vRows.length sector.rows.length > 3/10 then best
        else if sectorScore vRows sector > best.2 then (some sector, sectorScore vRows sector)
        else best) acc).2 := by
  induction l with
  | nil =>
    intro acc c hc
    simp at hc
  | cons b t ih =>
    intro acc c hc hnm hnd
    rcases List.mem_cons.mp hc with he | hct
    · subst he
      refine le_trans ?_ (matchScan_le vRows matched t _)
      dsimp only []
      rw [if_neg hnm, if_neg (not_lt.mpr hnd)]
      by_cases h3 : sectorScore vRows c > acc.2
      · rw [if_pos h3]
      · rw [if_neg h3]
        exact not_lt.mp h3
    · exact ih _ c hct hnm hnd

/-- A successful `matchSectorByStructure`: the returned canonical sector is
an unclaimed candidate passing the hard filter, scores at least 50, is a
maximum among eligible candidates, and its name is added to the claimed
set. -/
theorem matchSector_some (vRows : List (Str × RowStats))
    (kbSectors : List SectorStatsM) (matched : List Str) (m : SectorStatsM)
    (m2 : List Str)
    (h : matchSectorByStructure vRows kbSectors matched = (some m, m2)) :
    m ∈ kbSectors ∧ m.sectorName ∉ matched ∧
    rowCountRelDiff vRows.length m.rows.length ≤ 3/10 ∧
    50 ≤ sectorScore vRows m ∧
    (∀ c ∈ kbSectors, c.sectorName ∉ matched →
      rowCountRelDiff vRows.length c.rows.length ≤ 3/10 →
      sectorScore vRows c ≤ sectorScore vRows m) ∧
    m2 = addSet matched m.sectorName := by
  simp only [matchSectorByStructure] at h
  cases hf : (matchFold vRows kbSectors matched).1 with
  | none =>
    rw [hf] at h
    simp at h
  | some s =>
    rw [hf] at h
    replace h : (if 50 ≤ (matchFold vRows kbSectors matched).2
        then ((some s : Option SectorStatsM), addSet matched s.sectorName)
        else (none, matched)) = (some m, m2) := h
    obtain ⟨hmem, hnm, hfil, hsc⟩ := matchFold_invariant vRows kbSectors matched s hf
    by_cases h50 : 50 ≤ (matchFold vRows kbSectors matched).2
    · rw [if_pos h50] at h
      rw [Prod.mk.injEq] at h
      obtain ⟨hsm, hm2⟩ := h
      simp only [Option.some.injEq] at hsm
      subst hsm
      refine ⟨hmem, hnm, hfil, hsc ▸ h50, ?_, hm2.symm⟩
      intro c hc hcm hcd
      have hmax := matchScan_max vRows matched kbSectors (none, 0) c hc hcm hcd
      rw [← matchFold] at hmax
      exact hsc ▸ hmax
    · rw [if_neg h50] at h
      simp at h

/-- A failed `matchSectorByStructure` leaves the claimed set unchanged. -/
theorem matchSector_none (vRows : List (Str × RowStats))
    (kbSectors : List SectorStatsM) (matched : List Str) (m2 : List Str)
    (h : matchSectorByStructure vRows kbSectors matched = (none, m2)) :
    m2 = matched := by
  simp only [matchSectorByStructure] at h
  cases hf : (matchFold vRows kbSectors matched).1 with
  | none =>
    rw [hf] at h
    exact (congrArg Prod.snd h).symm
  | some s =>
    rw [hf] at h
    replace h : (if 50 ≤ (matchFold vRows kbSectors matched).2
        then ((some s : Option SectorStatsM), addSet matched s.sectorName)
        else (none, matched)) = ((none : Option SectorStatsM), m2) := h
    by_cases h50 : 50 ≤ (matchFold vRows kbSectors matched).2
    · rw [if_pos h50] at h
      simp at h
    · rw [if_neg h50] at h
      exact (congrArg Prod.snd h).symm

/-- When every eligible candidate scores below 50, no match is returned and
the claimed set is unchanged. -/
theorem matchSector_below_50 (vRows : List (Str × RowStats))
    (kbSectors : List SectorStatsM) (matched : List Str)
    (h : ∀ c ∈ kbSectors, c.sectorName ∉ matched →
      rowCountRelDiff vRows.length c.rows.length ≤ 3/10 →
      sectorScore vRows c < 50) :
    matchSectorByStructure vRows kbSectors matched = (none, matched) := by
  simp only [matchSectorByStructure]
  cases hf : (matchFold vRows kbSectors matched).1 with
  | none => rfl
  | some s =>
    show (if 50 ≤ (matchFold vRows kbSectors matched).2
        then ((some s : Option SectorStatsM), addSet matched s.sectorName)
        else (none, matched)) = (none, matched)
    obtain ⟨hmem, hnm, hfil, hsc⟩ := matchFold_invariant vRows kbSectors matched s hf
    rw [if_neg (not_le.mpr (hsc ▸ h s hmem hnm hfil))]

/-- A vendor sector and a canonical sector with the same (nonempty) row-name
sets and equal seat totals score exactly 100, provided normalization does
not collapse two distinct vendor row names. -/
theorem sectorScore_identical (vRows : List (Str × RowStats)) (sector : SectorStatsM)
    (hne : vRows ≠ [])
    (hvnd : (vRows.map Prod.fst).Nodup)
    (hknd : (sector.rows.map Prod.fst).Nodup)
    (hset : ∀ x, x ∈ vRows.map Prod.fst ↔ x ∈ sector.rows.map Prod.fst)
    (hseats : sumTotals vRows = sector.totals.total)
    (hinj : ∀ x ∈ vRows.map Prod.fst, ∀ y ∈ vRows.map Prod.fst,
      normalizeRowName x = normalizeRowName y → x = y) :
    sectorScore vRows sector = 100 := by
  have hperm : List.Perm (vRows.map Prod.fst) (sector.rows.map Prod.fst) :=
    List.perm_of_nodup_nodup_toFinset_eq hvnd hknd (by
      ext x
      simp only [List.mem_toFinset]
      exact hset x)
  have hlen : (vRows.map Prod.fst).length = (sector.rows.map Prod.fst).length :=
    hperm.length_eq
  have hnmnd : ((vRows.map Prod.fst).map normalizeRowName).Nodup :=
    List.Nodup.map_on hinj hvnd
  have hded : ((vRows.map Prod.fst).map normalizeRowName).dedup
      = (vRows.map Prod.fst).map normalizeRowName := List.Nodup.dedup hnmnd
  have hfil : (((vRows.map Prod.fst).map normalizeRowName).filter
      (fun r => decide (r ∈ (sector.rows.map Prod.fst).map normalizeRowName)))
      = (vRows.map Prod.fst).map normalizeRowName := by
    rw [List.filter_eq_self]
    intro a ha
    rw [List.mem_map] at ha
    obtain ⟨x, hx, hax⟩ := ha
    subst hax
    exact decide_eq_true (List.mem_map_of_mem _ ((hset x).mp hx))
  have hpos : 1 ≤ vRows.length := by
    cases vRows with
    | nil => exact absurd rfl hne
    | cons _ _ => exact Nat.succ_le_succ (Nat.zero_le _)
  simp only [sectorScore]
  rw [if_pos hlen, if_pos hseats, hded, hfil]
  simp only [List.length_map]
  have hcast : (1 : ℚ) ≤ (vRows.length : ℚ) := by exact_mod_cast hpos
  rw [max_eq_left hcast]
  rw [div_self (by positivity : (vRows.length : ℚ) ≠ 0)]
  norm_num

/-- Threading one claimed-set through successive greedy matches never
returns the same canonical sector name twice. -/
theorem greedyMatchAll_nodup (vSectors : List (List (Str × RowStats)))
    (kbSectors : List SectorStatsM) (matched : List Str) :
    ((greedyMatchAll vSectors kbSectors matched).1.filterMap
      (fun o => o.map SectorStatsM.sectorName)).Nodup := by
  suffices h : ∀ (l : List (List (Str × RowStats)))
      (acc : List (Option SectorStatsM) × List Str),
      (acc.1.filterMap (fun o => o.map SectorStatsM.sectorName)).Nodup →
      (∀ n ∈ acc.1.filterMap (fun o => o.map SectorStatsM.sectorName), n ∈ acc.2) →
      (((l.foldl (fun acc v =>
        (acc.1 ++ [(matchSectorByStructure v kbSectors acc.2).1],
         (matchSectorByStructure v kbSectors acc.2).2)) acc)).1.filterMap
        (fun o => o.map SectorStatsM.sectorName)).Nodup by
    exact h vSectors ([], matched) (by simp) (by simp)
  intro l
  induction l with
  | nil =>
    intro acc hnd _
    exact hnd
  | cons v t ih =>
    intro acc hnd hsub
    refine ih _ ?_ ?_
    · -- distinctness is preserved by the new entry
      dsimp only []
      rw [List.filterMap_append]
      cases hro : (matchSectorByStructure v kbSectors acc.2).1 with
      | none => simpa using hnd
      | some s =>
        have hr : matchSectorByStructure v kbSectors acc.2
            = (some s, (matchSectorByStructure v kbSectors acc.2).2) := by
          rw [← hro]
        obtain ⟨_, hnotin, _, _, _, _⟩ :=
          matchSector_some v kbSectors acc.2 s _ hr
        have hsing : ([some s].filterMap (fun o => o.map SectorStatsM.sectorName))
            = [s.sectorName] := by simp
        rw [hsing]
        refine List.Nodup.append hnd (List.nodup_singleton _) ?_
        intro a ha hb
        rw [List.mem_singleton] at hb
        subst hb
        exact hnotin (hsub _ ha)
    · -- every recorded name lies in the claimed set
      dsimp only []
      intro n hn
      rw [List.filterMap_append, List.mem_append] at hn
      cases hro : (matchSectorByStructure v kbSectors acc.2).1 with
      | none =>
        have hr : matchSectorByStructure v kbSectors acc.2
            = (none, (matchSectorByStructure v kbSectors acc.2).2) := by
          rw [← hro]
        have hm2 := matchSector_none v kbSectors acc.2 _ hr
        rw [hm2]
        rcases hn with hn | hn
        · exact hsub n hn
        · rw [hro] at hn
          simp at hn
      | some s =>
        have hr : matchSectorByStructure v kbSectors acc.2
            = (some s, (matchSectorByStructure v kbSectors acc.2).2) := by
          rw [← hro]
        obtain ⟨_, _, _, _, _, hm2⟩ :=
          matchSector_some v kbSectors acc.2 s _ hr
        rw [hm2]
        rcases hn with hn | hn
        · exact subset_addSet _ _ n (hsub n hn)
        · rw [hro] at hn
          simp only [List.filterMap_cons] at hn
          simp at hn
          subst hn
          exact (mem_addSet _ _ _).mpr (Or.inr rfl)

/-! ## Score-bound lemmas -/

/-- Relative row-count difference is nonnegative. -/
theorem rowCountRelDiff_nonneg (a b : ℕ) : 0 ≤ rowCountRelDiff a b := by
  unfold rowCountRelDiff
  apply div_nonneg (abs_nonneg _)
  have h1 : (0 : ℚ) ≤ 1 := by norm_num
  exact le_trans h1 (le_max_right _ _)

/-- Equal row counts pass the hard filter with difference zero. -/
theorem rowCountRelDiff_self (a : ℕ) : rowCountRelDiff a a = 0 := by
  unfold rowCountRelDiff
  rw [sub_self, abs_zero, zero_div]

/-- Every similarity score is at most 100. -/
theorem sectorScore_le_100 (vRows : List (Str × RowStats)) (sector : SectorStatsM) :
    sectorScore vRows sector ≤ 100 := by
  have hden : (1 : ℚ) ≤ max (((vRows.map Prod.fst).length : ℕ) : ℚ) 1 := le_max_right _ _
  have hdenpos : (0 : ℚ) < max (((vRows.map Prod.fst).length : ℕ) : ℚ) 1 :=
    lt_of_lt_of_le one_pos hden
  have hm : ((((vRows.map Prod.fst).map normalizeRowName).dedup.filter
      (fun r => decide (r ∈ (sector.rows.map Prod.fst).map normalizeRowName))).length : ℚ)
      ≤ max (((vRows.map Prod.fst).length : ℕ) : ℚ) 1 := by
    have h1 : (((vRows.map Prod.fst).map normalizeRowName).dedup.filter
        (fun r => decide (r ∈ (sector.rows.map Prod.fst).map normalizeRowName))).length
        ≤ ((vRows.map Prod.fst).map normalizeRowName).dedup.length :=
      (List.filter_sublist _).length_le
    have h2 : ((vRows.map Prod.fst).map normalizeRowName).dedup.length
        ≤ ((vRows.map Prod.fst).map normalizeRowName).length :=
      (List.dedup_sublist _).length_le
    have h3 : ((vRows.map Prod.fst).map normalizeRowName).length
        = (vRows.map Prod.fst).length := List.length_map _ _
    refine le_trans ?_ (le_max_left _ _)
    exact_mod_cast le_trans h1 (h3 ▸ h2)
  have hratio : ((((vRows.map Prod.fst).map normalizeRowName).dedup.filter
      (fun r => decide (r ∈ (sector.rows.map Prod.fst).map normalizeRowName))).length : ℚ)
      / max (((vRows.map Prod.fst).length : ℕ) : ℚ) 1 ≤ 1 :=
    (div_le_one hdenpos).mpr hm
  simp only [sectorScore]
  have hs1 : (if (vRows.map Prod.fst).length = (sector.rows.map Prod.fst).length then (30 : ℚ)
      else max 0 (30 - rowCountRelDiff (vRows.map Prod.fst).length
        (sector.rows.map Prod.fst).length * 100)) ≤ 30 := by
    split_ifs with h
    · exact le_refl _
    · refine max_le (by norm_num) ?_
      have := rowCountRelDiff_nonneg (vRows.map Prod.fst).length (sector.rows.map Prod.fst).length
      nlinarith
  have hs2 : (if sumTotals vRows = sector.totals.total then (30 : ℚ)
      else max 0 (30 - |(sumTotals vRows : ℚ) - (sector.totals.total : ℚ)|
        / max (max ((sumTotals vRows : ℕ) : ℚ) ((sector.totals.total : ℕ) : ℚ)) 1 * 150)) ≤ 30 := by
    split_ifs with h
    · exact le_refl _
    · refine max_le (by norm_num) ?_
      have habs : (0 : ℚ) ≤ |(sumTotals vRows : ℚ) - (sector.totals.total : ℚ)| := abs_nonneg _
      have hd : (0 : ℚ) < max (max ((sumTotals vRows : ℕ) : ℚ) ((sector.totals.total : ℕ) : ℚ)) 1 :=
        lt_of_lt_of_le one_pos (le_max_right _ _)
      have := div_nonneg habs (le_of_lt hd)
      nlinarith
  nlinarith [hs1, hs2, hratio]

/-- A strictly positive best score means a best candidate exists. -/
theorem matchFold_pos_isSome (vRows : List (Str × RowStats))
    (kbSectors : List SectorStatsM) (matched : List Str)
    (h : 0 < (matchFold vRows kbSectors matched).2) :
    (matchFold vRows kbSectors matched).1.isSome := by
  unfold matchFold at h ⊢
  refine foldl_preserve
    (fun acc : Option SectorStatsM × ℚ => 0 < acc.2 → acc.1.isSome)
    _ kbSectors (none, 0) (fun h0 => absurd h0 (lt_irrefl 0)) ?_ h
  intro acc b hP
  dsimp only []
  split_ifs with h1 h2 h3
  · exact hP
  · exact hP
  · intro _
    rfl
  · exact hP

/-! ## Seat-color lemmas -/

/-- Lookup after the inner (per-row) color loop. -/
theorem lookupA_rowColors (f : Str → String) (rowKey : Str) (key : Str) :
    ∀ (names : List Str) (acc : List (Str × String)),
    lookupA (names.foldl (fun colors seatName =>
      recSet colors (rowKey ++ '-' :: seatName) (f (rowKey ++ '-' :: seatName))) acc) key
      = if ∃ nm ∈ names, rowKey ++ '-' :: nm = key then some (f key)
        else lookupA acc key := by
  intro names
  induction names with
  | nil =>
    intro acc
    rw [if_neg (by simp)]
    rfl
  | cons nm t ih =>
    intro acc
    show lookupA (t.foldl _ (recSet acc (rowKey ++ '-' :: nm) (f (rowKey ++ '-' :: nm)))) key = _
    rw [ih]
    by_cases h1 : ∃ x ∈ t, rowKey ++ '-' :: x = key
    · rw [if_pos h1, if_pos ?_]
      obtain ⟨x, hx, he⟩ := h1
      exact ⟨x, List.mem_cons_of_mem _ hx, he⟩
    · rw [if_neg h1, lookupA_recSet]
      by_cases h2 : key = rowKey ++ '-' :: nm
      · rw [if_pos h2, if_pos ⟨nm, List.mem_cons_self _ _, h2.symm⟩, h2]
      · rw [if_neg h2, if_neg ?_]
        rintro ⟨x, hx, he⟩
        rcases List.mem_cons.mp hx with he2 | he2
        · exact h2 (he2 ▸ he).symm
        · exact h1 ⟨x, he2, he⟩

/-- Lookup in the computed seat-color map: every seat of the universe maps
to the color computed for its key. -/
theorem lookupA_computeSeatColors (st : VizState) (inferred : List (Str × Source))
    (kbName : Str) (key : Str) :
    lookupA (computeSeatColors st inferred kbName) key
      = if ∃ p ∈ st.seatsPerRow, ∃ nm ∈ p.2, p.1 ++ '-' :: nm = key
        then some (colorOfSeat st.seatStatuses inferred kbName key)
        else none := by
  unfold computeSeatColors
  suffices h : ∀ (rows : List (Str × List Str)) (acc : List (Str × String)),
      lookupA (rows.foldl (fun colors p =>
        p.2.foldl (fun colors seatName =>
          recSet colors (p.1 ++ '-' :: seatName)
            (colorOfSeat st.seatStatuses inferred kbName (p.1 ++ '-' :: seatName))) colors) acc) key
        = if ∃ p ∈ rows, ∃ nm ∈ p.2, p.1 ++ '-' :: nm = key
          then some (colorOfSeat st.seatStatuses inferred kbName key)
          else lookupA acc key by
    rw [h st.seatsPerRow []]
    by_cases hx : ∃ p ∈ st.seatsPerRow, ∃ nm ∈ p.2, p.1 ++ '-' :: nm = key
    · rw [if_pos hx, if_pos hx]
    · rw [if_neg hx, if_neg hx]
      rfl
  intro rows
  induction rows with
  | nil =>
    intro acc
    rw [if_neg (by simp)]
    rfl
  | cons p t ih =>
    intro acc
    show lookupA (t.foldl _ (p.2.foldl _ acc)) key = _
    rw [ih]
    by_cases h1 : ∃ q ∈ t, ∃ nm ∈ q.2, q.1 ++ '-' :: nm = key
    · rw [if_pos h1, if_pos ?_]
      obtain ⟨q, hq, hrest⟩ := h1
      exact ⟨q, List.mem_cons_of_mem _ hq, hrest⟩
    · rw [if_neg h1, lookupA_rowColors]
      by_cases h2 : ∃ nm ∈ p.2, p.1 ++ '-' :: nm = key
      · rw [if_pos h2, if_pos ⟨p, List.mem_cons_self _ _, h2⟩]
      · rw [if_neg h2, if_neg ?_]
        rintro ⟨q, hq, hrest⟩
        rcases List.mem_cons.mp hq with he | he
        · exact h2 (he ▸ hrest)
        · exact h1 ⟨q, he, hrest⟩

/-- `colorOfSeat` written out as the claim's priority chain. -/
theorem colorOfSeat_expand (sts : List (Str × PortalStatuses))
    (inferred : List (Str × Source)) (kbName : Str) (key : Str) :
    colorOfSeat sts inferred kbName key
      = (if (statusesFor sts key).biletyna = some VStatus.free then COLOR_biletyna_free
        else if (statusesFor sts key).ebilet = some VStatus.free then COLOR_ebilet_free
        else if (statusesFor sts key).kupbilecik = some VStatus.free then COLOR_kupbilecik_free
        else match lookupA inferred (kbName ++ ':' :: key) with
          | some soldSource => takenColorOf soldSource
          | none => COLOR_noData) := by
  unfold colorOfSeat firstFreePortal
  by_cases h1 : (statusesFor sts key).biletyna = some VStatus.free
  · rw [if_pos h1, if_pos h1]
    rfl
  · rw [if_neg h1, if_neg h1]
    by_cases h2 : (statusesFor sts key).ebilet = some VStatus.free
    · rw [if_pos h2, if_pos h2]
      rfl
    · rw [if_neg h2, if_neg h2]
      by_cases h3 : (statusesFor sts key).kupbilecik = some VStatus.free
      · rw [if_pos h3, if_pos h3]
        rfl
      · rw [if_neg h3, if_neg h3]

/-- Vendor free colors are not taken colors. -/
theorem isLight_not_dark (c : String) (h : isLightColor c = true) : isDarkColor c = false := by
  simp only [isLightColor, decide_eq_true_eq] at h
  rcases h with h | h | h <;> (subst h; decide)

/-- The no-data color is not a taken color. -/
theorem isNoData_not_dark (c : String) (h : isNoDataColor c = true) : isDarkColor c = false := by
  simp only [isNoDataColor, decide_eq_true_eq] at h
  subst h
  decide

/-! # Claim theorems -/

/-- **C7**: row-name normalization is idempotent — for every row label `r`,
`normalize (normalize r) = normalize r` — and in particular
`normalize "VII" = "7"`, `normalize "Rząd 5" = "5"`, and
`normalize "Balcony" = "balcony"`. -/
theorem C7_row_normalization_idempotent :
    (∀ r : Str, normalizeRowName (normalizeRowName r) = normalizeRowName r) ∧
    normalizeRowName "VII".data = "7".data ∧
    normalizeRowName "Rząd 5".data = "5".data ∧
    normalizeRowName "Balcony".data = "balcony".data :=
  ⟨normalizeRowName_idem, by decide, by decide, by decide⟩

/-- **C10**: the backend and frontend row-name normalizers disagree — the
backend resolves the trailing numeral of `"Rząd 5"` and rejoins seat keys,
while the frontend returns the label unchanged; the code's own comment
(`must match frontend normalization!`) makes the intended equality explicit,
so this is a defect in the code, witnessed at the failing input `"Rząd 5"`. -/
theorem C10_normalizer_mismatch :
    normalizeRowName "Rząd 5".data = "5".data ∧
    normalizeRowNameFE "Rząd 5".data = "Rząd 5".data ∧
    normalizeRowName "Rząd 5".data ≠ normalizeRowNameFE "Rząd 5".data ∧
    normalizeSeatKey "Rząd 5-12".data = "5-12".data ∧
    normalizeSeatKeyFE "Rząd 5-12".data = "Rząd 5-12".data ∧
    normalizeRowName "Balcony".data = "balcony".data ∧
    normalizeRowNameFE "Balcony".data = "Balcony".data := by
  refine ⟨by decide, by decide, by decide, by decide, by decide, by decide, by decide⟩

/-- **C9**: the period-over-period diff is absent exactly when no previous
snapshot exists; otherwise each vendor's delta is the raw difference
clamped at zero — never negative — and previous taken 10 with current
taken 8 yields 0, not −2. -/
theorem C9_diff_absent_iff_first_run_and_clamped (c p : StatsHistoryEntry) :
    computeDiff c none = none ∧
    computeDiff c (some p) = some ⟨max 0 (c.biletynaTaken - p.biletynaTaken),
      max 0 (c.ebiletTaken - p.ebiletTaken),
      max 0 (c.kupbilecikTaken - p.kupbilecikTaken), p.timestamp⟩ ∧
    (∀ d, computeDiff c (some p) = some d →
      0 ≤ d.biletynaTaken ∧ 0 ≤ d.ebiletTaken ∧ 0 ≤ d.kupbilecikTaken) ∧
    computeDiff ⟨8, 0, 0, "t2"⟩ (some ⟨10, 0, 0, "t1"⟩) = some ⟨0, 0, 0, "t1"⟩ := by
  refine ⟨rfl, rfl, ?_, by decide⟩
  intro d hd
  simp only [computeDiff, Option.some.injEq] at hd
  subst hd
  exact ⟨le_max_left _ _, le_max_left _ _, le_max_left _ _⟩

/-- Witness for C9 at a concrete snapshot pair with one negative raw
delta. -/
theorem C9_witness :
    computeDiff ⟨8, 5, 7, "t2"⟩ (some ⟨10, 3, 7, "t1"⟩) = some ⟨0, 2, 0, "t1"⟩ ∧
    (0 : ℤ) ≤ (0 : ℤ) ∧ (0 : ℤ) ≤ (2 : ℤ) ∧ (0 : ℤ) ≤ (0 : ℤ) := by
  constructor
  · decide
  · exact (C9_diff_absent_iff_first_run_and_clamped ⟨8, 5, 7, "t2"⟩ ⟨10, 3, 7, "t1"⟩).2.2.1
      ⟨0, 2, 0, "t1"⟩ (by decide)

/-- **C8**: the override merge is a total deterministic function on
(live color, optional override) obeying the fixed priority stack: special
override wins outright; otherwise live taken wins even against a free
override; otherwise a taken override wins over live free/no-data; otherwise
a free override wins over live free/no-data; otherwise the live color, and
with no override the live color. -/
theorem C8_override_priority_stack (live ov : String) :
    mergeColors live none = live ∧
    (isSpecialColor ov = true → mergeColors live (some ov) = ov) ∧
    (isSpecialColor ov = false → isDarkColor live = true →
      mergeColors live (some ov) = live) ∧
    (isSpecialColor ov = false → (isLightColor live = true ∨ isNoDataColor live = true) →
      isDarkColor ov = true → mergeColors live (some ov) = ov) ∧
    (isSpecialColor ov = false → (isLightColor live = true ∨ isNoDataColor live = true) →
      isLightColor ov = true → mergeColors live (some ov) = ov) ∧
    (isSpecialColor ov = false → isDarkColor live = false → isDarkColor ov = false →
      isLightColor ov = false → mergeColors live (some ov) = live) := by
  refine ⟨rfl, ?_, ?_, ?_, ?_, ?_⟩
  · intro hspec
    simp [mergeColors, hspec]
  · intro hspec hdark
    simp [mergeColors, hspec, hdark]
  · intro hspec hlive hdark
    have hld : isDarkColor live = false := by
      rcases hlive with h | h
      · exact isLight_not_dark live h
      · exact isNoData_not_dark live h
    simp [mergeColors, hspec, hld, hdark]
  · intro hspec hlive hovl
    have hld : isDarkColor live = false := by
      rcases hlive with h | h
      · exact isLight_not_dark live h
      · exact isNoData_not_dark live h
    have hod : isDarkColor ov = false := isLight_not_dark ov hovl
    simp [mergeColors, hspec, hld, hod, hovl]
  · intro hspec hld hod hol
    simp [mergeColors, hspec, hld, hod, hol]

/-- Witness for C8 at the three scenarios named by the spec: live sale
beats a free override, a taken override fills a no-data gap, a special
override always wins. -/
theorem C8_witness :
    mergeColors COLOR_biletyna_taken (some COLOR_ebilet_free) = COLOR_biletyna_taken ∧
    mergeColors COLOR_noData (some COLOR_ebilet_taken) = COLOR_ebilet_taken ∧
    mergeColors COLOR_biletyna_free (some COLOR_notForSale) = COLOR_notForSale := by
  refine ⟨?_, ?_, ?_⟩
  · exact (C8_override_priority_stack COLOR_biletyna_taken COLOR_ebilet_free).2.2.1
      (by decide) (by decide)
  · exact (C8_override_priority_stack COLOR_noData COLOR_ebilet_taken).2.2.2.1
      (by decide) (Or.inr (by decide)) (by decide)
  · exact (C8_override_priority_stack COLOR_biletyna_free COLOR_notForSale).2.1 (by decide)

/-- **C4**: sector alignment never matches a vendor sector to a canonical
candidate whose row count differs by more than 30% relative to the larger
count; in particular a 3-row vendor sector is never matched to a 10-row
canonical sector. -/
theorem C4_hard_row_count_filter (vRows : List (Str × RowStats))
    (kbSectors : List SectorStatsM) (matched : List Str) (m : SectorStatsM)
    (m2 : List Str)
    (h : matchSectorByStructure vRows kbSectors matched = (some m, m2)) :
    rowCountRelDiff vRows.length m.rows.length ≤ 3/10 ∧
    ¬(vRows.length = 3 ∧ m.rows.length = 10) := by
  have hf := (matchSector_some vRows kbSectors matched m m2 h).2.2.1
  refine ⟨hf, ?_⟩
  rintro ⟨h3, h10⟩
  rw [h3, h10] at hf
  have h710 : rowCountRelDiff 3 10 = 7/10 := by
    unfold rowCountRelDiff
    norm_num
  rw [h710] at hf
  norm_num at hf

/-- Witness for C4 at a concrete successful match (identical 1-row
sectors). -/
theorem C4_witness :
    matchSectorByStructure [("1".data, (⟨2, 2, 0⟩ : RowStats))]
      [⟨"A".data, [("1".data, ⟨2, 2, 0⟩)], ["1-1".data, "1-2".data], [], ⟨2, 2, 0⟩⟩] []
      = (some ⟨"A".data, [("1".data, ⟨2, 2, 0⟩)], ["1-1".data, "1-2".data], [], ⟨2, 2, 0⟩⟩,
        ["A".data]) ∧
    rowCountRelDiff [("1".data, (⟨2, 2, 0⟩ : RowStats))].length
      ([("1".data, (⟨2, 2, 0⟩ : RowStats))] : List (Str × RowStats)).length ≤ 3/10 := by
  constructor
  · with_unfolding_all decide
  · exact (C4_hard_row_count_filter [("1".data, ⟨2, 2, 0⟩)]
      [⟨"A".data, [("1".data, ⟨2, 2, 0⟩)], ["1-1".data, "1-2".data], [], ⟨2, 2, 0⟩⟩] []
      ⟨"A".data, [("1".data, ⟨2, 2, 0⟩)], ["1-1".data, "1-2".data], [], ⟨2, 2, 0⟩⟩
      ["A".data] (by with_unfolding_all decide)).1

/-- **C5 counterexample**: two sectors with literally identical row lists
(hence identical row sets) and equal seat totals score 80, not 100 — the
row names `"I"` and `"1"` collapse under normalization, so the row-name
component contributes 20 of its 40 points. -/
theorem C5_counterexample :
    ([("I".data, (⟨1, 1, 0⟩ : RowStats)), ("1".data, ⟨1, 1, 0⟩)].map Prod.fst
      = ((⟨"A".data, [("I".data, ⟨1, 1, 0⟩), ("1".data, ⟨1, 1, 0⟩)], [], [],
          ⟨2, 2, 0⟩⟩ : SectorStatsM)).rows.map Prod.fst) ∧
    sumTotals [("I".data, (⟨1, 1, 0⟩ : RowStats)), ("1".data, ⟨1, 1, 0⟩)]
      = ((⟨"A".data, [("I".data, ⟨1, 1, 0⟩), ("1".data, ⟨1, 1, 0⟩)], [], [],
          ⟨2, 2, 0⟩⟩ : SectorStatsM)).totals.total ∧
    sectorScore [("I".data, (⟨1, 1, 0⟩ : RowStats)), ("1".data, ⟨1, 1, 0⟩)]
      ⟨"A".data, [("I".data, ⟨1, 1, 0⟩), ("1".data, ⟨1, 1, 0⟩)], [], [], ⟨2, 2, 0⟩⟩
      = 80 ∧
    sectorScore [("I".data, (⟨1, 1, 0⟩ : RowStats)), ("1".data, ⟨1, 1, 0⟩)]
      ⟨"A".data, [("I".data, ⟨1, 1, 0⟩), ("1".data, ⟨1, 1, 0⟩)], [], [], ⟨2, 2, 0⟩⟩
      ≠ 100 := by
  refine ⟨by decide, by decide, by with_unfolding_all decide, by with_unfolding_all decide⟩

/-- **C5 (amended)**: identical (nonempty) row sets with equal seat totals
score exactly 100 — provided row-name normalization does not identify two
distinct vendor row names — and such an unclaimed candidate forces a match
with score 100; in general a returned match scores at least 50 and is
maximal among unclaimed candidates passing the hard filter, and when every
such candidate scores below 50 no match is returned. -/
theorem C5_identical_sectors_and_threshold :
    (∀ (vRows : List (Str × RowStats)) (sector : SectorStatsM),
      vRows ≠ [] → (vRows.map Prod.fst).Nodup → (sector.rows.map Prod.fst).Nodup →
      (∀ x, x ∈ vRows.map Prod.fst ↔ x ∈ sector.rows.map Prod.fst) →
      sumTotals vRows = sector.totals.total →
      (∀ x ∈ vRows.map Prod.fst, ∀ y ∈ vRows.map Prod.fst,
        normalizeRowName x = normalizeRowName y → x = y) →
      sectorScore vRows sector = 100) ∧
    (∀ (vRows : List (Str × RowStats)) (kbSectors : List SectorStatsM)
      (matched : List Str) (sector : SectorStatsM),
      vRows ≠ [] → (vRows.map Prod.fst).Nodup → (sector.rows.map Prod.fst).Nodup →
      (∀ x, x ∈ vRows.map Prod.fst ↔ x ∈ sector.rows.map Prod.fst) →
      sumTotals vRows = sector.totals.total →
      (∀ x ∈ vRows.map Prod.fst, ∀ y ∈ vRows.map Prod.fst,
        normalizeRowName x = normalizeRowName y → x = y) →
      sector ∈ kbSectors → sector.sectorName ∉ matched →
      ∃ m m2, matchSectorByStructure vRows kbSectors matched = (some m, m2) ∧
        sectorScore vRows m = 100) ∧
    (∀ (vRows : List (Str × RowStats)) (kbSectors : List SectorStatsM)
      (matched : List Str) (m : SectorStatsM) (m2 : List Str),
      matchSectorByStructure vRows kbSectors matched = (some m, m2) →
      50 ≤ sectorScore vRows m ∧
      ∀ c ∈ kbSectors, c.sectorName ∉ matched →
        rowCountRelDiff vRows.length c.rows.length ≤ 3/10 →
        sectorScore vRows c ≤ sectorScore vRows m) ∧
    (∀ (vRows : List (Str × RowStats)) (kbSectors : List SectorStatsM)
      (matched : List Str),
      (∀ c ∈ kbSectors, c.sectorName ∉ matched →
        rowCountRelDiff vRows.length c.rows.length ≤ 3/10 →
        sectorScore vRows c < 50) →
      matchSectorByStructure vRows kbSectors matched = (none, matched)) := by
  refine ⟨sectorScore_identical, ?_, ?_, matchSector_below_50⟩
  · intro vRows kbSectors matched sector hne hvnd hknd hset hseats hinj hmem hnm
    have h100 : sectorScore vRows sector = 100 :=
      sectorScore_identical vRows sector hne hvnd hknd hset hseats hinj
    have hlen : vRows.length = sector.rows.length := by
      have hperm : List.Perm (vRows.map Prod.fst) (sector.rows.map Prod.fst) :=
        List.perm_of_nodup_nodup_toFinset_eq hvnd hknd (by
          ext x
          simp only [List.mem_toFinset]
          exact hset x)
      simpa using hperm.length_eq
    have hfil : rowCountRelDiff vRows.length sector.rows.length ≤ 3/10 := by
      rw [hlen, rowCountRelDiff_self]
      norm_num
    have hscan := matchScan_max vRows matched kbSectors (none, 0) sector hmem hnm hfil
    rw [← matchFold] at hscan
    rw [h100] at hscan
    have hpos : 0 < (matchFold vRows kbSectors matched).2 := by linarith
    obtain ⟨m, hm⟩ := Option.isSome_iff_exists.mp
      (matchFold_pos_isSome vRows kbSectors matched hpos)
    obtain ⟨hmmem, hmnm, hmfil, hmsc⟩ := matchFold_invariant vRows kbSectors matched m hm
    have hm100 : sectorScore vRows m = 100 :=
      le_antisymm (sectorScore_le_100 vRows m) (hmsc ▸ hscan)
    have h50 : 50 ≤ (matchFold vRows kbSectors matched).2 := by linarith
    refine ⟨m, addSet matched m.sectorName, ?_, hm100⟩
    simp only [matchSectorByStructure]
    rw [hm]
    show (if 50 ≤ (matchFold vRows kbSectors matched).2
        then ((some m : Option SectorStatsM), addSet matched m.sectorName)
        else (none, matched)) = (some m, addSet matched m.sectorName)
    rw [if_pos h50]
  · intro vRows kbSectors matched m m2 h
    obtain ⟨_, _, _, h50, hmax, _⟩ := matchSector_some vRows kbSectors matched m m2 h
    exact ⟨h50, hmax⟩

/-- Witness for C5 at two identical two-row sectors with
normalization-distinct row names. -/
theorem C5_witness :
    sectorScore [("1".data, (⟨1, 1, 0⟩ : RowStats)), ("2".data, ⟨1, 0, 1⟩)]
      ⟨"C".data, [("1".data, ⟨1, 1, 0⟩), ("2".data, ⟨1, 0, 1⟩)], [], [], ⟨2, 1, 1⟩⟩
      = 100 :=
  C5_identical_sectors_and_threshold.1
    [("1".data, ⟨1, 1, 0⟩), ("2".data, ⟨1, 0, 1⟩)]
    ⟨"C".data, [("1".data, ⟨1, 1, 0⟩), ("2".data, ⟨1, 0, 1⟩)], [], [], ⟨2, 1, 1⟩⟩
    (by decide) (by decide) (by decide) (fun x => Iff.rfl) (by decide) (by decide)

/-- **C3 counterexample**: in one run the biletyna pass and the eBilet pass
each keep their own claimed-set, so a biletyna sector and an eBilet sector
are both assigned to the same canonical sector `"A"` — the later eBilet
match attempt does not skip the canonical sector already claimed during
the biletyna pass. -/
theorem C3_counterexample :
    ((combineBiletynaSectors
        [⟨[("1".data, ⟨2, 2, 0⟩)], ["1-1".data, "1-2".data], []⟩,
         ⟨[("7".data, ⟨3, 3, 0⟩)], ["7-1".data, "7-2".data, "7-3".data], []⟩]
        (some [⟨"A".data, [("1".data, ⟨2, 0, 2⟩)], [], ["1-1".data, "1-2".data],
          ⟨2, 0, 2⟩⟩])).map
      (fun st => (st.sectors.getD []).map SectorStatsM.sectorName))
      = some ["A".data, "Sektor 2".data] ∧
    ((processEbiletAllSectors
        [("s1".data, ⟨[⟨"e1".data, "1".data, "1".data⟩, ⟨"e2".data, "1".data, "2".data⟩]⟩),
         ("s2".data, ⟨[⟨"f1".data, "7".data, "1".data⟩, ⟨"f2".data, "7".data, "2".data⟩,
           ⟨"f3".data, "7".data, "3".data⟩]⟩)]
        ⟨[("s1".data, [⟨["e1".data]⟩])], none⟩
        (some [⟨"A".data, [("1".data, ⟨2, 0, 2⟩)], [], ["1-1".data, "1-2".data],
          ⟨2, 0, 2⟩⟩])).map
      (fun st => (st.sectors.getD []).map SectorStatsM.sectorName))
      = some ["A".data, "Sektor 2".data] := by
  refine ⟨by with_unfolding_all decide, by with_unfolding_all decide⟩

/-- **C3 (amended)**: within a single vendor's matching pass — successive
`matchSectorByStructure` calls threading one claimed-set — no canonical
sector is ever returned twice, and a successful match is never a sector
already in the claimed set (separate vendors use separate claimed-sets, so
one canonical sector may be claimed once per vendor). -/
theorem C3_greedy_no_reuse_per_vendor :
    (∀ (vSectors : List (List (Str × RowStats))) (kbSectors : List SectorStatsM)
      (matched : List Str),
      ((greedyMatchAll vSectors kbSectors matched).1.filterMap
        (fun o => o.map SectorStatsM.sectorName)).Nodup) ∧
    (∀ (vRows : List (Str × RowStats)) (kbSectors : List SectorStatsM)
      (matched : List Str) (m : SectorStatsM) (m2 : List Str),
      matchSectorByStructure vRows kbSectors matched = (some m, m2) →
      m.sectorName ∉ matched ∧ m2 = addSet matched m.sectorName) := by
  refine ⟨greedyMatchAll_nodup, ?_⟩
  intro vRows kbSectors matched m m2 h
  obtain ⟨_, hnm, _, _, _, hm2⟩ := matchSector_some vRows kbSectors matched m m2 h
  exact ⟨hnm, hm2⟩

/-- Witness for C3 (amended) at a concrete successful match. -/
theorem C3_witness :
    ("A".data ∉ ([] : List Str)) ∧ ["A".data] = addSet [] "A".data :=
  C3_greedy_no_reuse_per_vendor.2 [("1".data, ⟨2, 2, 0⟩)]
    [⟨"A".data, [("1".data, ⟨2, 2, 0⟩)], ["1-1".data, "1-2".data], [], ⟨2, 2, 0⟩⟩] []
    ⟨"A".data, [("1".data, ⟨2, 2, 0⟩)], ["1-1".data, "1-2".data], [], ⟨2, 2, 0⟩⟩
    ["A".data] (by with_unfolding_all decide)

/-- **C1**: after the history has been updated with this run's free seats,
the inferred-sold map contains exactly those history keys whose sector
component (the part before the first `:`) is among the sectors scraped this
run and whose key is not in this run's free-key set, each mapped to the
vendor stored in that history entry; consequently a sector not scraped this
run contributes no inferred-sold entries even with non-empty history. -/
theorem C1_inferred_sold_exact (h0 : List (Str × Source))
    (results : List (Source × Option SourceStatsM))
    (hnodup : (h0.map Prod.fst).Nodup) :
    (∀ key v,
      lookupA (computeInferredSold (runHistoryUpdate h0 results).history
          (runHistoryUpdate h0 results).knownSectors
          (runHistoryUpdate h0 results).currentFreeKeys) key = some v ↔
        (sectorOfKey key ∈ (runHistoryUpdate h0 results).knownSectors ∧
         key ∉ (runHistoryUpdate h0 results).currentFreeKeys ∧
         lookupA (runHistoryUpdate h0 results).history key = some v)) ∧
    (∀ key, sectorOfKey key ∉ (runHistoryUpdate h0 results).knownSectors →
      lookupA (computeInferredSold (runHistoryUpdate h0 results).history
        (runHistoryUpdate h0 results).knownSectors
        (runHistoryUpdate h0 results).currentFreeKeys) key = none) := by
  constructor
  · intro key v
    exact lookupA_inferredSold _ _ _ key v (runHistoryUpdate_nodup h0 results hnodup)
  · intro key hk
    exact inferredSold_unknown _ _ _ key hk

/-- Witness for C1: sector `"A"` scraped with no free seats infers its
history entry sold; the stale history of the unscraped sector `"C"`
contributes nothing. -/
theorem C1_witness :
    lookupA (computeInferredSold
        (runHistoryUpdate [("A:5-12".data, Source.biletyna), ("C:1-1".data, Source.ebilet)]
          [(Source.biletyna, some ⟨Source.biletyna, ⟨0, 0, 0⟩, [], [], [],
            some [⟨"A".data, [], [], [], ⟨0, 0, 0⟩⟩]⟩)]).history
        (runHistoryUpdate [("A:5-12".data, Source.biletyna), ("C:1-1".data, Source.ebilet)]
          [(Source.biletyna, some ⟨Source.biletyna, ⟨0, 0, 0⟩, [], [], [],
            some [⟨"A".data, [], [], [], ⟨0, 0, 0⟩⟩]⟩)]).knownSectors
        (runHistoryUpdate [("A:5-12".data, Source.biletyna), ("C:1-1".data, Source.ebilet)]
          [(Source.biletyna, some ⟨Source.biletyna, ⟨0, 0, 0⟩, [], [], [],
            some [⟨"A".data, [], [], [], ⟨0, 0, 0⟩⟩]⟩)]).currentFreeKeys)
      "A:5-12".data = some Source.biletyna ∧
    lookupA (computeInferredSold
        (runHistoryUpdate [("A:5-12".data, Source.biletyna), ("C:1-1".data, Source.ebilet)]
          [(Source.biletyna, some ⟨Source.biletyna, ⟨0, 0, 0⟩, [], [], [],
            some [⟨"A".data, [], [], [], ⟨0, 0, 0⟩⟩]⟩)]).history
        (runHistoryUpdate [("A:5-12".data, Source.biletyna), ("C:1-1".data, Source.ebilet)]
          [(Source.biletyna, some ⟨Source.biletyna, ⟨0, 0, 0⟩, [], [], [],
            some [⟨"A".data, [], [], [], ⟨0, 0, 0⟩⟩]⟩)]).knownSectors
        (runHistoryUpdate [("A:5-12".data, Source.biletyna), ("C:1-1".data, Source.ebilet)]
          [(Source.biletyna, some ⟨Source.biletyna, ⟨0, 0, 0⟩, [], [], [],
            some [⟨"A".data, [], [], [], ⟨0, 0, 0⟩⟩]⟩)]).currentFreeKeys)
      "C:1-1".data = none := by
  constructor
  · exact ((C1_inferred_sold_exact
      [("A:5-12".data, Source.biletyna), ("C:1-1".data, Source.ebilet)]
      [(Source.biletyna, some ⟨Source.biletyna, ⟨0, 0, 0⟩, [], [], [],
        some [⟨"A".data, [], [], [], ⟨0, 0, 0⟩⟩]⟩)]
      (by decide)).1 "A:5-12".data Source.biletyna).mpr (by decide)
  · exact (C1_inferred_sold_exact
      [("A:5-12".data, Source.biletyna), ("C:1-1".data, Source.ebilet)]
      [(Source.biletyna, some ⟨Source.biletyna, ⟨0, 0, 0⟩, [], [], [],
        some [⟨"A".data, [], [], [], ⟨0, 0, 0⟩⟩]⟩)]
      (by decide)).2 "C:1-1".data (by decide)

/-- **C6**: every seat reported free in some sector of a vendor's sector
split is recorded in the saved history under `sectorName:normalizedSeatKey`,
mapped to the last vendor, in processing order, that wrote that key — a
vendor that reported a seat with that key free this run. -/
theorem C6_history_last_writer (h0 : List (Str × Source))
    (results : List (Source × Option SourceStatsM)) (src : Source)
    (d : SourceStatsM) (sectors : List SectorStatsM) (sec : SectorStatsM) (sk : Str)
    (hres : (src, some d) ∈ results) (hsecs : d.sectors = some sectors)
    (hsec : sec ∈ sectors) (hsk : sk ∈ sec.freeSeats) :
    ∃ v : Source,
      lookupA (runHistoryUpdate h0 results).history
        (sec.sectorName ++ ':' :: normalizeSeatKey sk) = some v ∧
      lookupA (updatesOfResults results).reverse
        (sec.sectorName ++ ':' :: normalizeSeatKey sk) = some v ∧
      (∃ d2 sectors2 sec2 sk2, (v, some d2) ∈ results ∧ d2.sectors = some sectors2 ∧
        sec2 ∈ sectors2 ∧ sk2 ∈ sec2.freeSeats ∧
        sec.sectorName ++ ':' :: normalizeSeatKey sk
          = sec2.sectorName ++ ':' :: normalizeSeatKey sk2) := by
  have hkin : (sec.sectorName ++ ':' :: normalizeSeatKey sk, src) ∈ updatesOfResults results :=
    (mem_updatesOfResults results _ src).mpr ⟨d, sectors, sec, sk, hres, hsecs, hsec, hsk, rfl⟩
  have hkeys : sec.sectorName ++ ':' :: normalizeSeatKey sk
      ∈ (updatesOfResults results).reverse.map Prod.fst :=
    List.mem_map_of_mem Prod.fst (List.mem_reverse.mpr hkin)
  cases hl : lookupA (updatesOfResults results).reverse
      (sec.sectorName ++ ':' :: normalizeSeatKey sk) with
  | none => exact absurd hkeys ((lookupA_eq_none_iff _ _).mp hl)
  | some v =>
    refine ⟨v, ?_, rfl, ?_⟩
    · rw [lookupA_runHistoryUpdate, hl]
      rfl
    · exact (mem_updatesOfResults results _ v).mp
        (List.mem_reverse.mp (lookupA_mem _ _ _ hl))

/-- Witness for C6: two vendors both report seat `"1-1"` of sector `"A"`
free; the saved history attributes the key to the later-processed vendor. -/
theorem C6_witness :
    lookupA (runHistoryUpdate []
        [(Source.biletyna, some ⟨Source.biletyna, ⟨1, 1, 0⟩, [], [], [],
          some [⟨"A".data, [], ["1-1".data], [], ⟨1, 1, 0⟩⟩]⟩),
         (Source.ebilet, some ⟨Source.ebilet, ⟨1, 1, 0⟩, [], [], [],
          some [⟨"A".data, [], ["1-1".data], [], ⟨1, 1, 0⟩⟩]⟩)]).history
      "A:1-1".data = some Source.ebilet := by
  obtain ⟨v, h1, h2, _⟩ := C6_history_last_writer []
    [(Source.biletyna, some ⟨Source.biletyna, ⟨1, 1, 0⟩, [], [], [],
      some [⟨"A".data, [], ["1-1".data], [], ⟨1, 1, 0⟩⟩]⟩),
     (Source.ebilet, some ⟨Source.ebilet, ⟨1, 1, 0⟩, [], [], [],
      some [⟨"A".data, [], ["1-1".data], [], ⟨1, 1, 0⟩⟩]⟩)]
    Source.biletyna
    ⟨Source.biletyna, ⟨1, 1, 0⟩, [], [], [], some [⟨"A".data, [], ["1-1".data], [], ⟨1, 1, 0⟩⟩]⟩
    [⟨"A".data, [], ["1-1".data], [], ⟨1, 1, 0⟩⟩]
    ⟨"A".data, [], ["1-1".data], [], ⟨1, 1, 0⟩⟩
    "1-1".data (by decide) rfl (by decide) (by decide)
  have he : v = Source.ebilet := by
    have h3 : lookupA (updatesOfResults
        [(Source.biletyna, some ⟨Source.biletyna, ⟨1, 1, 0⟩, [], [], [],
          some [⟨"A".data, [], ["1-1".data], [], ⟨1, 1, 0⟩⟩]⟩),
         (Source.ebilet, some ⟨Source.ebilet, ⟨1, 1, 0⟩, [], [], [],
          some [⟨"A".data, [], ["1-1".data], [], ⟨1, 1, 0⟩⟩]⟩)]).reverse
        (("A".data : Str) ++ ':' :: normalizeSeatKey "1-1".data) = some Source.ebilet := by
      decide
    exact Option.some_inj.mp ((h2.symm.trans h3).symm).symm
  exact he ▸ h1

/-- **C2**: for every seat of the canonical sector's seat universe, the
single-color resolution is: the free color of the first vendor in the order
biletyna, ebilet, kupbilecik whose status is free; otherwise the stored
vendor's taken color when the inferred-sold map has an entry for
`sectorName:seatKey`; otherwise the no-data color. -/
theorem C2_single_color_resolution (kbSector : SectorStatsM) (perSource : PerSource)
    (inferredSold : List (Str × Source)) (row : Str) (names : List Str) (seatName : Str)
    (hrow : (row, names) ∈
      (calculateSectorVisualizationWithBase kbSector perSource inferredSold).1.seatsPerRow)
    (hname : seatName ∈ names) :
    lookupA (calculateSectorVisualizationWithBase kbSector perSource inferredSold).2
      (row ++ '-' :: seatName)
      = some (
        if (statusesFor
            (calculateSectorVisualizationWithBase kbSector perSource inferredSold).1.seatStatuses
            (row ++ '-' :: seatName)).biletyna = some VStatus.free
          then COLOR_biletyna_free
        else if (statusesFor
            (calculateSectorVisualizationWithBase kbSector perSource inferredSold).1.seatStatuses
            (row ++ '-' :: seatName)).ebilet = some VStatus.free
          then COLOR_ebilet_free
        else if (statusesFor
            (calculateSectorVisualizationWithBase kbSector perSource inferredSold).1.seatStatuses
            (row ++ '-' :: seatName)).kupbilecik = some VStatus.free
          then COLOR_kupbilecik_free
        else match lookupA inferredSold
            (kbSector.sectorName ++ ':' :: (row ++ '-' :: seatName)) with
          | some soldSource => takenColorOf soldSource
          | none => COLOR_noData) := by
  have hc : (calculateSectorVisualizationWithBase kbSector perSource inferredSold).2
      = computeSeatColors
        (calculateSectorVisualizationWithBase kbSector perSource inferredSold).1
        inferredSold kbSector.sectorName := rfl
  rw [hc, lookupA_computeSeatColors,
    if_pos ⟨(row, names), hrow, seatName, hname, rfl⟩, colorOfSeat_expand]

/-- Witness for C2: a seat taken on kupbilecik with an inferred-sold entry
resolves to the stored vendor's taken color. -/
theorem C2_witness :
    lookupA (calculateSectorVisualizationWithBase
        ⟨"A".data, [("1".data, ⟨2, 1, 1⟩)], ["1-1".data], ["1-2".data], ⟨2, 1, 1⟩⟩
        ⟨none, none, none⟩ [("A:1-2".data, Source.ebilet)]).2
      "1-2".data = some COLOR_ebilet_taken := by
  have h := C2_single_color_resolution
    ⟨"A".data, [("1".data, ⟨2, 1, 1⟩)], ["1-1".data], ["1-2".data], ⟨2, 1, 1⟩⟩
    ⟨none, none, none⟩ [("A:1-2".data, Source.ebilet)]
    "1".data ["1".data, "2".data] "2".data (by decide) (by decide)
  exact h.trans (by decide)

end Bilety
